import Mathlib

/-!
# A shallow embedding of `tstruct` (josharian/tstruct, `tstruct.go`)

`tstruct` builds, from a Go struct type `T`, a template `FuncMap`
containing one constructor function (named after the struct) and one
setter function per exported field (named after the field).  The
constructor takes "apply functions" (deferred setter closures) and
applies them to a freshly allocated instance.

The embedding below translates `tstruct.go` into Lean:

* Go `reflect.Type` becomes `Ty`.  Struct types are identified by
  name; a separate environment `SEnv` maps a struct name to its field
  list (name, type, exportedness, `tstruct` tag).  In Go, two distinct
  types may share a name; the claims under study never depend on that,
  so type identity is name identity here.
* Go `reflect.Value` becomes `Value`.  A struct value stores an
  association list of explicitly-set fields: absent entries denote the
  zero value of the field type (`getFieldOr`), mirroring
  `reflect.New(rt).Elem()` which starts all fields at zero.  A nil map
  is `vmap _ _ none`, an allocated map is `vmap _ _ (some entries)`.
  The `fieldsAreUnset` sentinel map of the source is the `vsentinel`
  constructor.
* Go panics inside setters/constructors and Go error returns are both
  modelled as `Except.error`; a panic escaping `AddFuncMap` leaves the
  caller's map unmodified exactly like an error return does, so the
  merged view is faithful for the claims at hand.
* `addStructFuncs` recurses into nested struct types through the
  environment; Go overflows the stack on recursively defined structs
  (an acknowledged TODO in the source), which the embedding models
  with a fuel parameter whose exhaustion is an error.
* The `TStructSet` custom-hook surface is modelled by a `HookEnv`
  mapping a type to its (optional) hook: whether the method has
  results, whether it is also bound to a value receiver, and the
  method body itself as a function from (devirtualized) arguments to
  the value stored in the receiver.
* Interface-typed values do not occur in the model (no claim needs
  them), so `devirt` is the identity, as it is in Go on non-interface
  values; Go assignability/convertibility between the remaining
  concrete types is type equality.
* Mutation is translated to explicit state passing.  In particular the
  constructor closure's captured `required` map is threaded through
  `ctorRun`, which returns the closure's state after the call; the
  clone at the top of the constructor (`r2`) means the captured state
  comes back unchanged.
-/

namespace Tstruct

/-- Go types, as far as the package inspects them (`reflect.Type`).
Struct types are identified by name; their fields live in an `SEnv`. -/
inductive Ty where
  | tint
  | tstr
  | tbool
  | tslice (elem : Ty)
  | tmap (key elem : Ty)
  | tstruct (sname : String)
  | tsentinel
deriving DecidableEq, Repr

/-- `Kind() == reflect.Struct`. -/
def Ty.isStructTy : Ty → Bool
  | .tstruct _ => true
  | _ => false

/-- One field of a struct type: name, type, exportedness, and the value
of its `tstruct` struct tag (`""` when absent). -/
structure FieldT where
  fname : String
  fty : Ty
  exported : Bool
  tag : String
deriving DecidableEq, Repr

/-- The struct-type environment: field lists by struct name. -/
abbrev SEnv := List (String × List FieldT)

/-- Field list of a named struct type (`rt.Field i` for all `i`). -/
def envFields (env : SEnv) (sname : String) : List FieldT :=
  (env.lookup sname).getD []

/-- Go values (`reflect.Value`).  A struct value records only the
fields that have been explicitly set; missing entries read as the zero
value of their type.  `vsentinel` is the `fieldsAreUnset` sentinel
map. -/
inductive Value where
  | vint (n : Int)
  | vstr (s : String)
  | vbool (b : Bool)
  | vslice (elem : Ty) (elems : List Value)
  | vmap (key elem : Ty) (entries : Option (List (Value × Value)))
  | vstruct (sname : String) (vals : List (String × Value))
  | vsentinel (unset : List String)

/-- `v.Type()`. -/
def Value.ty : Value → Ty
  | .vint _ => .tint
  | .vstr _ => .tstr
  | .vbool _ => .tbool
  | .vslice e _ => .tslice e
  | .vmap k v _ => .tmap k v
  | .vstruct n _ => .tstruct n
  | .vsentinel _ => .tsentinel

/-- The zero value of a type (`reflect.New(rt).Elem()`): zero scalars,
nil slices/maps, a struct with every field zero (represented as an
empty explicit-field list). -/
def zeroOfTy : Ty → Value
  | .tint => .vint 0
  | .tstr => .vstr ""
  | .tbool => .vbool false
  | .tslice e => .vslice e []
  | .tmap k v => .vmap k v none
  | .tstruct n => .vstruct n []
  | .tsentinel => .vsentinel []

/-- Equality of Go map keys.  Go map keys must be comparable; the
claims only exercise scalar keys, so composite keys compare unequal
here (they cannot arise as map keys in the source's tests). -/
def Value.keyBeq : Value → Value → Bool
  | .vint a, .vint b => a == b
  | .vstr a, .vstr b => a == b
  | .vbool a, .vbool b => a == b
  | _, _ => false

/-- `m.SetMapIndex(k, v)`: replace the binding of `k` if present,
otherwise add it. -/
def setMapEntry (es : List (Value × Value)) (k v : Value) : List (Value × Value) :=
  if es.any (fun p => Value.keyBeq p.1 k) then
    es.map (fun p => if Value.keyBeq p.1 k then (p.1, v) else p)
  else
    es ++ [(k, v)]

/-- Replace the binding of key `k` in a struct's explicit-field list,
or append it. -/
def setAssoc (vals : List (String × Value)) (k : String) (v : Value) :
    List (String × Value) :=
  if vals.any (fun p => p.1 == k) then
    vals.map (fun p => if p.1 = k then (k, v) else p)
  else
    vals ++ [(k, v)]

/-- `dst.FieldByIndex(f.Index)` as a read: the explicitly set value,
or the zero value of the field type. -/
def getFieldOr (dst : Value) (fname : String) (fty : Ty) : Value :=
  match dst with
  | .vstruct _ vals => (vals.lookup fname).getD (zeroOfTy fty)
  | _ => zeroOfTy fty

/-- Writing through `dst.FieldByIndex(f.Index)`. -/
def setFieldVal (dst : Value) (fname : String) (v : Value) : Value :=
  match dst with
  | .vstruct n vals => .vstruct n (setAssoc vals fname v)
  | _ => dst

/-- An applyFn applies previously saved arguments to v.  Panics are
`Except.error`. -/
abbrev applyFn := Value → Except String Value

/-- A savedApplyFn accepts arguments from a template and saves them to
be applied later. -/
abbrev savedApplyFn := List Value → applyFn

/-- devirt makes x have a concrete type.  Interface values do not
occur in this model, so this is the identity, exactly as the source's
`devirt` is on concrete values. -/
def devirt (x : Value) : Value := x

/-- devirtAll returns a copy of s containing devirtualized values. -/
def devirtAll (s : List Value) : List Value := s.map devirt

/-- `src.Convert(dst.Type())`: the claims only exercise conversions
between identical types, so any other conversion is the error
(`reflect.Convert` panics on unconvertible pairs). -/
def convertVal (src : Value) (t : Ty) : Except String Value :=
  if src.ty = t then .ok src else .error "reflect: cannot convert"

/-- didMarkFieldAsSet checks whether this is a request to mark the
field name as having been set by an apply function.  If it returns
`some`, the apply function must stop processing and return the updated
sentinel. -/
def didMarkFieldAsSet (fname : String) (v : Value) : Option Value :=
  match v with
  | .vsentinel unset => some (.vsentinel (unset.filter (fun k => k != fname)))
  | _ => none

/-- The single-argument compatible-map test of the map-field setter:
one argument whose devirtualized shape is a map with key and element
types assignable to the field's; its entry list if so. -/
def singleMapArg (kt vt : Ty) (args : List Value) : Option (List (Value × Value)) :=
  match args with
  | [a] =>
    match devirt a with
    | .vmap kt' vt' es' =>
        if kt' = kt ∧ vt' = vt then some (es'.getD []) else none
    | _ => none
  | _ => none

/-- Processing of (key, elem) argument pairs by a map-field setter:
`f.SetMapIndex(devirt k, devirt e)` for each pair.  `SetMapIndex`
panics when key or element is not assignable. -/
def mapFieldPairs (kt vt : Ty) : List (Value × Value) → List Value →
    Except String (List (Value × Value))
  | es, [] => .ok es
  | es, k :: v :: rest =>
      if (devirt k).ty = kt ∧ (devirt v).ty = vt then
        mapFieldPairs kt vt (setMapEntry es (devirt k) (devirt v)) rest
      else
        .error "reflect: SetMapIndex with wrongly typed key or value"
  | _, [_] => .error "internal: odd argument count reached the pair loop"

/-- The current entry list of a map field: the allocated entries, or
the empty list when the field is still the nil map (`f.IsZero()`, in
which case the setter does `f.Set(reflect.MakeMap(f.Type()))`). -/
def mapEntriesOf (dst : Value) (fname : String) (kt vt : Ty) :
    List (Value × Value) :=
  match getFieldOr dst fname (.tmap kt vt) with
  | .vmap _ _ (some es) => es
  | _ => []

/-- The current elements of a slice field (nil reads as empty). -/
def sliceElems (dst : Value) (fname : String) (et : Ty) : List Value :=
  match getFieldOr dst fname (.tslice et) with
  | .vslice _ xs => xs
  | _ => []

/-- One argument of a slice-field setter: `reflect.AppendSlice` when
the argument's type is assignable to the field's slice type, otherwise
`reflect.Append` of the single value (which panics when the value is
not assignable to the element type). -/
def sliceAppendStep (et : Ty) (acc : List Value) (arg : Value) :
    Except String (List Value) :=
  if arg.ty = .tslice et then
    match arg with
    | .vslice _ ys => .ok (acc ++ ys)
    | _ => .error "internal: slice-typed value is not a slice"
  else if arg.ty = et then
    .ok (acc ++ [arg])
  else
    .error "reflect: Append with wrongly typed value"

/-- The body of the setter `genSavedApplyFnForField` generates for a
field without a `TStructSet` hook, split by field kind exactly as the
source's `switch f.Type.Kind()`. -/
def fieldApply (fname : String) (fty : Ty) : savedApplyFn := fun args => fun dst =>
  match didMarkFieldAsSet fname dst with
  | some dst' => .ok dst'
  | none =>
    match fty with
    | .tmap kt vt =>
        -- map fields: allocate on first use, merge a single compatible
        -- map argument, otherwise consume (key, elem) pairs
        let es := mapEntriesOf dst fname kt vt
        match singleMapArg kt vt args with
        | some es' =>
            .ok (setFieldVal dst fname
              (.vmap kt vt (some (es'.foldl (fun acc p => setMapEntry acc p.1 p.2) es))))
        | none =>
            if args.length % 2 = 1 then
              .error ("odd number of args to " ++ fname ++
                ", expected (key, elem) pairs, got " ++ toString args.length ++ " args")
            else
              match mapFieldPairs kt vt es args with
              | .error e => .error e
              | .ok es => .ok (setFieldVal dst fname (.vmap kt vt (some es)))
    | .tslice et =>
        -- slice fields: splice compatible slices, append everything else
        match (devirtAll args).foldlM (sliceAppendStep et) (sliceElems dst fname et) with
        | .error e => .error e
        | .ok xs => .ok (setFieldVal dst fname (.vslice et xs))
    | _ =>
        -- everything else: do a plain Set
        let x? : Option Value :=
          match args with
          | [] => if fty = .tbool then some (.vbool true) else none
          | [a] => some a
          | _ => none
        match x? with
        | none => .error ("wrong number of args to " ++ fname ++ ", expected 1")
        | some x =>
            match convertVal (devirt x) fty with
            | .error e => .error e
            | .ok c => .ok (setFieldVal dst fname c)

/-- A `TStructSet` hook of a field's type: `Method.Type.NumOut() ≠ 0`,
also-on-value-receiver, and the method body (arguments to the value it
leaves in the fresh receiver). -/
structure HookInfo where
  returnsVals : Bool
  valueRecv : Bool
  run : List Value → Value

/-- The method-set view: which types expose `TStructSet`. -/
abbrev HookEnv := Ty → Option HookInfo

/-- The setter generated for a field whose type has a (well-formed)
`TStructSet` hook: call the hook on a fresh zero receiver with the
devirtualized arguments, then convert-and-set the result. -/
def hookApply (h : HookInfo) (fname : String) (fty : Ty) : savedApplyFn :=
  fun args => fun dst =>
    match didMarkFieldAsSet fname dst with
    | some dst' => .ok dst'
    | none =>
        match convertVal (h.run (devirtAll args)) fty with
        | .error e => .error e
        | .ok c => .ok (setFieldVal dst fname c)

/-- genSavedApplyFnForField generates a savedApplyFn for the field, to
be given name `fname`. -/
def genSavedApplyFnForField (henv : HookEnv) (fname : String) (fty : Ty) :
    Except String savedApplyFn :=
  match henv fty with
  | some h =>
      if h.returnsVals then
        .error ("TStructSet (for field " ++ fname ++ ") must not return values")
      else if h.valueRecv then
        .error ("TStructSet (for field " ++ fname ++ ") must have pointer receiver")
      else
        .ok (hookApply h fname fty)
  | none => .ok (fieldApply fname fty)

/-- What `T` is in `addStructFuncs[T]`: a concrete struct type, or
`reflect.Value` for the generic nested-schema path. -/
inductive CtorT where
  | conc (t : Ty)
  | rv
deriving DecidableEq, Repr

/-- A FuncMap entry, as the package classifies the `any` values it
finds: a constructor `func(args ...applyFn) T` (tagged by its Go-level
result type), a `savedApplyFn` field setter, or something foreign
(`Entry.other`), which the package treats as a conflict. -/
inductive Entry where
  | ctor (ret : CtorT) (run : List applyFn → Except String Value)
  | setter (run : savedApplyFn)
  | other

/-- FuncMaps.  Assoc lists with unique keys; insertion replaces. -/
abbrev FnMap := List (String × Entry)

/-- `fnmap[k] = e`. -/
def insertFn (m : FnMap) (k : String) (e : Entry) : FnMap :=
  (k, e) :: m.filter (fun p => p.1 != k)

/-- `copyFuncMap(dst, src)`: every binding of `src` overrides `dst`. -/
def copyFuncMap (dst src : FnMap) : FnMap :=
  src.foldl (fun d p => insertFn d p.1 p.2) dst

/-- The wrapping function `setSavedApplyFn` installs when a field name
is already bound to a setter for another struct type: answer the
sentinel, handle targets of the registering struct type, otherwise
dispatch to the previously installed function. -/
def chainApply (fname : String) (typ : Ty) (fn dispatch : savedApplyFn) :
    savedApplyFn := fun args => fun dst =>
  match didMarkFieldAsSet fname dst with
  | some dst' => .ok dst'
  | none =>
      if dst.ty = typ then fn args dst
      else dispatch args dst

/-- setSavedApplyFn installs `fn` as the setter for field `fname` of
struct type `typ`, chaining over a previously installed setter and
refusing to overwrite anything that is not a setter. -/
def setSavedApplyFn (m : FnMap) (fname : String) (typ : Ty) (fn : savedApplyFn) :
    Except String FnMap :=
  match m.lookup fname with
  | none => .ok (insertFn m fname (.setter fn))
  | some (.setter dispatch) =>
      .ok (insertFn m fname (.setter (chainApply fname typ fn dispatch)))
  | some _ => .error ("conflicting FuncMap entries for " ++ fname)

/-- `sort.Strings`. -/
def sortStrings (l : List String) : List String :=
  l.insertionSort (· ≤ ·)

/-- The required-field list collected at registration: exported fields
whose `tstruct` tag is `"+"`. -/
def requiredOf (fields : List FieldT) : List String :=
  (fields.filter (fun f => f.exported && f.tag == "+")).map (·.fname)

/-- The message of the panic raised when required fields are missing. -/
def requiredMsg (sname : String) (missing : List String) : String :=
  String.intercalate ", " (sortStrings (missing.map (fun k => sname ++ "." ++ k))) ++
    " required but not provided"

/-- The body of the generated constructor `func(args ...applyFn) T`.

The closure captures the `required` map built at registration time;
that map is the only mutable state a constructor invocation can see,
so the translation threads it explicitly: the second component of the
result is the captured state after the call.  The source clones the
captured map into `r2` and feeds the clone (as the sentinel) to the
apply functions, so the captured state comes back untouched. -/
def ctorRun (sname : String) (req : List String) (args : List applyFn) :
    Except String Value × List String :=
  let res : Except String Value := do
    if !req.isEmpty then
      -- clone required into r2 and run the presence phase on the clone
      let r2 := req
      let senti ← args.foldlM (fun s a => a s) (Value.vsentinel r2)
      let remaining := match senti with | .vsentinel mset => mset | _ => []
      if !remaining.isEmpty then
        throw (requiredMsg sname remaining)
    -- now, actually set the fields
    args.foldlM (fun s a => a s) (Value.vstruct sname [])
  (res, req)

/-- registeredFuncMatches: is the existing entry `x` a tstruct
constructor for exactly the struct type we are registering?  The typed
assertion succeeds when the Go-level result types agree; otherwise a
constructor shape is probed by calling it with no arguments (a panic
there propagates) and comparing the produced instance's type. -/
def registeredFuncMatches (tkind : CtorT) (x : Entry) (rt : Ty) :
    Except String Bool :=
  match x with
  | .ctor ret run =>
      if ret = tkind then .ok true
      else do
        let out ← run []
        .ok (decide (out.ty = rt))
  | .setter _ => .ok false
  | .other => .ok false

/-- The nested-schema registration triggered by one field's type: a
struct field, a slice-of-struct field, or a map field with struct key
or element registers the contained struct type(s) via `recurse` (the
recursive `addStructFuncs[reflect.Value]` call one nesting level
deeper). -/
def nestedRegistration (recurse : Ty → FnMap → Except String FnMap)
    (fty : Ty) (m : FnMap) : Except String FnMap :=
  match fty with
  | .tstruct s => recurse (.tstruct s) m
  | .tslice e =>
      if e.isStructTy then recurse e m else pure m
  | .tmap k v => do
      let m ← if k.isStructTy then recurse k m else pure m
      if v.isStructTy then recurse v m else pure m
  | _ => pure m

/-- The per-field loop of addStructFuncs: register nested struct
schemas reachable through the field's type, then generate and install
the field's setter. -/
def addFieldFuncs (henv : HookEnv) (recurse : Ty → FnMap → Except String FnMap) :
    Ty → List FieldT → FnMap → Except String FnMap
  | _, [], m => .ok m
  | rt, f :: rest, m =>
    if !f.exported then addFieldFuncs henv recurse rt rest m
    else if f.tag = "-" then addFieldFuncs henv recurse rt rest m
    else do
      let m ← nestedRegistration recurse f.fty m
      let fn ← genSavedApplyFnForField henv f.fname f.fty
      let m ← setSavedApplyFn m f.fname rt fn
      addFieldFuncs henv recurse rt rest m

/-- addStructFuncs adds funcs to fnmap to construct structs of type
`rt` and to populate `rt`'s fields.  The fuel bounds the nesting depth
(the source overflows the stack on recursively defined structs). -/
def addStructFuncs (henv : HookEnv) (env : SEnv) :
    Nat → CtorT → Ty → FnMap → Except String FnMap
  | 0, _, _, _ => .error "tstruct: struct nesting too deep (recursively defined struct)"
  | fuel+1, tkind, rt, m =>
    match rt with
    | .tstruct sname =>
      if sname = "" then
        .error ("anonymous struct (type " ++ sname ++ ") is not supported")
      else
        match m.lookup sname with
        | some x => do
            let ok ← registeredFuncMatches tkind x (.tstruct sname)
            if !ok then
              throw ("conflicting FuncMap entries for " ++ sname)
            else if tkind = .rv then
              -- keep the possibly more precisely typed existing entry
              pure m
            else
              let fields := envFields env sname
              let req := requiredOf fields
              let m := insertFn m sname (.ctor tkind (fun args => (ctorRun sname req args).1))
              addFieldFuncs henv (addStructFuncs henv env fuel .rv) (.tstruct sname) fields m
        | none =>
            let fields := envFields env sname
            let req := requiredOf fields
            let m := insertFn m sname (.ctor tkind (fun args => (ctorRun sname req args).1))
            addFieldFuncs henv (addStructFuncs henv env fuel .rv) (.tstruct sname) fields m
    | _ => .error "addStructFuncs: non-struct type"

/-- AddFuncMap adds constructors for T to base.  The mutation of the
caller's map is made explicit: the second component is `base` after
the call, the first is the returned error (panics escaping
registration included).  All work happens on a private copy of base,
which is merged back only on total success. -/
def AddFuncMapGo (henv : HookEnv) (env : SEnv) (fuel : Nat) (rt : Ty)
    (base : FnMap) : Option String × FnMap :=
  if !rt.isStructTy then
    (some "non-struct type", base)
  else
    let fnmap := copyFuncMap [] base
    match addStructFuncs henv env fuel (.conc rt) rt fnmap with
    | .error e => (some e, base)
    | .ok m => (none, copyFuncMap base m)

/-! ## The template engine's view

The expression evaluator looks up callables by name and composes them:
a constructor call `(S (F a b) ...)` looks up each field name to get a
saved-apply function, calls it with the call-site arguments, and feeds
the resulting apply steps to the constructor.  The drivers below model
exactly that composition. -/

/-- A method set with no `TStructSet` hooks anywhere. -/
def noHooks : HookEnv := fun _ => none

/-- `(F a b)`: look up the setter for a field name and apply it to its
call-site arguments, producing an apply step. -/
def lookupSetter (m : FnMap) (c : String × List Value) : applyFn :=
  match m.lookup c.1 with
  | some (.setter g) => g c.2
  | _ => fun _ => .error ("not a field setter: " ++ c.1)

/-- All apply steps of one constructor call. -/
def mkSteps (m : FnMap) (calls : List (String × List Value)) : List applyFn :=
  calls.map (lookupSetter m)

/-- `(S (F1 ...) (F2 ...))`: look up the constructor for a schema name
and feed it the apply steps built from `calls`. -/
def callCtor (m : FnMap) (s : String) (calls : List (String × List Value)) :
    Except String Value :=
  match m.lookup s with
  | some (.ctor _ run) => run (mkSteps m calls)
  | _ => .error ("not a constructor: " ++ s)

/-! ## Shape predicates used by the general theorems -/

/-- Fields the registration loop actually processes: exported and not
tagged `tstruct:"-"`. -/
def FieldT.relevant (f : FieldT) : Bool := f.exported && f.tag != "-"

/-- A field type that triggers no nested schema registration. -/
def nonNestedTy : Ty → Bool
  | .tstruct _ => false
  | .tslice e => !e.isStructTy
  | .tmap k v => !k.isStructTy && !v.isStructTy
  | .tsentinel => false
  | _ => true

/-- Field kinds handled by the plain-`Set` branch of the generated
setter, with a one-argument calling convention. -/
def scalarKind : Ty → Bool
  | .tint | .tstr | .tbool => true
  | _ => false

/-- Key-uniqueness of a FuncMap (Go maps cannot have duplicate keys;
`insertFn` maintains this). -/
def keysNodup (m : FnMap) : Prop := (m.map Prod.fst).Nodup

/-! ## Association-list lemmas -/

theorem lookup_filter_ne (m : FnMap) (k k' : String) (h : k' ≠ k) :
    (m.filter (fun p => p.1 != k)).lookup k' = m.lookup k' := by
  induction m with
  | nil => rfl
  | cons p rest ih =>
      obtain ⟨a, e⟩ := p
      by_cases hk : a = k
      · subst hk
        have h2 : (k' == a) = false := beq_eq_false_iff_ne.mpr h
        simp [List.filter_cons, List.lookup, h2, ih]
      · have h1 : ((a, e).1 != k) = true := bne_iff_ne.mpr hk
        by_cases hka : k' = a
        · subst hka
          simp [List.filter_cons, h1, List.lookup]
        · have h2 : (k' == a) = false := beq_eq_false_iff_ne.mpr hka
          simp [List.filter_cons, h1, List.lookup, h2, ih]

theorem lookup_insertFn (m : FnMap) (k k' : String) (e : Entry) :
    (insertFn m k e).lookup k' = if k' = k then some e else m.lookup k' := by
  unfold insertFn
  by_cases h : k' = k
  · subst h
    simp [List.lookup]
  · have hb : (k' == k) = false := beq_eq_false_iff_ne.mpr h
    simp only [List.lookup, hb, if_neg h]
    exact lookup_filter_ne m k k' h

theorem lookup_eq_none_of_not_mem_keys (l : FnMap) (k : String)
    (h : k ∉ l.map Prod.fst) : l.lookup k = none := by
  induction l with
  | nil => rfl
  | cons p rest ih =>
      obtain ⟨a, e⟩ := p
      simp only [List.map_cons, List.mem_cons] at h
      push_neg at h
      have hb : (k == a) = false := beq_eq_false_iff_ne.mpr h.1
      simp [List.lookup, hb, ih h.2]

theorem keysNodup_insertFn (m : FnMap) (k : String) (e : Entry)
    (h : keysNodup m) : keysNodup (insertFn m k e) := by
  unfold keysNodup insertFn
  simp only [List.map_cons, List.nodup_cons]
  refine ⟨?_, ?_⟩
  · intro hmem
    rcases List.mem_map.mp hmem with ⟨p, hp, hfst⟩
    have h2 := (List.mem_filter.mp hp).2
    rw [hfst] at h2
    simp at h2
  · have hsub : List.Sublist ((m.filter (fun p => p.1 != k)).map Prod.fst)
        (m.map Prod.fst) := (List.filter_sublist m).map Prod.fst
    exact List.Nodup.sublist hsub h

theorem lookup_copyFuncMap (src : FnMap) (hsrc : keysNodup src) :
    ∀ (d : FnMap) (k : String),
      (copyFuncMap d src).lookup k = (src.lookup k).or (d.lookup k) := by
  induction src with
  | nil =>
      intro d k
      simp [copyFuncMap, List.lookup, Option.or]
  | cons p rest ih =>
      intro d k
      obtain ⟨a, e⟩ := p
      have hcons : (a :: rest.map Prod.fst).Nodup := by
        simpa [keysNodup] using hsrc
      have hna : a ∉ rest.map Prod.fst := (List.nodup_cons.mp hcons).1
      have hrest : keysNodup rest := (List.nodup_cons.mp hcons).2
      show (copyFuncMap (insertFn d a e) rest).lookup k = _
      rw [ih hrest]
      by_cases hk : k = a
      · subst hk
        have hnone : rest.lookup k = none := lookup_eq_none_of_not_mem_keys rest k hna
        rw [hnone, lookup_insertFn]
        simp [List.lookup, Option.or]
      · rw [lookup_insertFn]
        have hb : (k == a) = false := beq_eq_false_iff_ne.mpr hk
        simp [List.lookup, hb, if_neg hk]

theorem keysNodup_copyFuncMap (src : FnMap) :
    ∀ (d : FnMap), keysNodup d → keysNodup (copyFuncMap d src) := by
  induction src with
  | nil => intro d h; exact h
  | cons p rest ih =>
      intro d h
      exact ih _ (keysNodup_insertFn d p.1 p.2 h)

theorem keysNodup_nil : keysNodup [] := List.nodup_nil

/-! ## C2: registration is transactional -/

/-- C2: registration is transactional.  For every type, struct-type
environment, method set and base map, if `AddFuncMap` returns an error
(for any reason, panics escaping registration included), the caller's
base map is exactly what it was before the call: all registration work
happens on a private copy, merged back only on total success. -/
theorem addFuncMap_error_leaves_base_unchanged
    (henv : HookEnv) (env : SEnv) (fuel : Nat) (rt : Ty) (base : FnMap)
    (h : (AddFuncMapGo henv env fuel rt base).1.isSome) :
    (AddFuncMapGo henv env fuel rt base).2 = base := by
  unfold AddFuncMapGo at h ⊢
  by_cases hs : (!rt.isStructTy) = true
  · rw [if_pos hs]
  · rw [if_neg hs] at h ⊢
    dsimp only at h ⊢
    cases he : addStructFuncs henv env fuel (.conc rt) rt (copyFuncMap [] base) with
    | error e => simp only [he]
    | ok m =>
        rw [he] at h
        simp at h

/-- Witness for C2 at a concrete erroring input (a non-struct type). -/
theorem addFuncMap_error_leaves_base_unchanged_witness :
    (AddFuncMapGo noHooks [] 0 .tint []).1.isSome = true ∧
    (AddFuncMapGo noHooks [] 0 .tint []).2 = [] :=
  ⟨rfl, addFuncMap_error_leaves_base_unchanged noHooks [] 0 .tint [] (by rfl)⟩

/-! ## C5: re-registration of an identical schema -/

/-- Schema `R` with a required field, and a schema `W` containing `R`,
the shape under which transitive re-registration meets the
zero-argument constructor probe of `registeredFuncMatches`. -/
def envReqWrap : SEnv :=
  [("R", [⟨"F", .tint, true, "+"⟩]),
   ("W", [⟨"Inner", .tstruct "R", true, ""⟩])]

/-- Counterexample to C5 as stated: `R` (one required field) registers
fine on its own, but then registering the containing schema `W` — which
transitively re-registers `R` — does not succeed: probing the existing
constructor calls it with zero arguments, and the required-field check
panics.  (In Go this is a panic escaping `AddFuncMap`, not an error
return.) -/
theorem reregistration_with_required_fields_fails :
    (AddFuncMapGo noHooks envReqWrap 5 (.tstruct "R") []).1 = none ∧
    (AddFuncMapGo noHooks envReqWrap 5 (.tstruct "W")
        (AddFuncMapGo noHooks envReqWrap 5 (.tstruct "R") []).2).1 =
      some "R.F required but not provided" :=
  ⟨rfl, rfl⟩

/-! ## C9: unknown `tstruct` tag directives -/

/-- Schema with a field whose `tstruct` tag is neither `"-"` nor `"+"`. -/
def envUnknownTag : SEnv := [("T9", [⟨"X", .tint, true, "x"⟩])]

/-- Counterexample to C9: registering a struct whose field carries the
unknown directive `tstruct:"x"` does NOT fail; the code only ever
compares the tag against `"+"` (required) and `"-"` (ignore) and
treats anything else as no directive at all. -/
theorem unknown_tag_is_not_a_registration_error :
    (AddFuncMapGo noHooks envUnknownTag 5 (.tstruct "T9") []).1 = none := rfl

/-- C9 amended: a `tstruct` tag value other than `"-"` and `"+"` is
not a registration error; the field is treated as carrying no
directive at all: registration succeeds, the field gets its ordinary
setter, the setter works, and the field is not required (constructing
with no arguments succeeds). -/
theorem unknown_tag_treated_as_no_directive (tag : String)
    (h1 : tag ≠ "-") (h2 : tag ≠ "+") :
    (AddFuncMapGo noHooks [("T9", [⟨"X", .tint, true, tag⟩])] 5 (.tstruct "T9") []).1 = none ∧
    ((AddFuncMapGo noHooks [("T9", [⟨"X", .tint, true, tag⟩])] 5 (.tstruct "T9") []).2).lookup "X"
      = some (.setter (fieldApply "X" .tint)) ∧
    callCtor ((AddFuncMapGo noHooks [("T9", [⟨"X", .tint, true, tag⟩])] 5 (.tstruct "T9") []).2)
      "T9" [("X", [.vint 5])] = .ok (.vstruct "T9" [("X", .vint 5)]) ∧
    callCtor ((AddFuncMapGo noHooks [("T9", [⟨"X", .tint, true, tag⟩])] 5 (.tstruct "T9") []).2)
      "T9" [] = .ok (.vstruct "T9" []) := by
  have hb2 : (tag == "+") = false := beq_eq_false_iff_ne.mpr h2
  refine ⟨?_, ?_, ?_, ?_⟩ <;>
    simp [AddFuncMapGo, addStructFuncs, addFieldFuncs, nestedRegistration, envFields,
      requiredOf, genSavedApplyFnForField, noHooks, setSavedApplyFn, insertFn, copyFuncMap,
      callCtor, mkSteps, lookupSetter, ctorRun, fieldApply, singleMapArg,
      didMarkFieldAsSet, convertVal, setFieldVal, setAssoc, getFieldOr, zeroOfTy,
      List.lookup, h1, hb2, Ty.isStructTy, devirt, Value.ty,
      Bind.bind, Except.bind, pure, Except.pure]

/-- Witness for the amended C9 at the concrete tag `"x"`. -/
theorem unknown_tag_treated_as_no_directive_witness :
    ("x" ≠ "-" ∧ "x" ≠ "+") ∧
    (AddFuncMapGo noHooks [("T9", [⟨"X", .tint, true, "x"⟩])] 5 (.tstruct "T9") []).1 = none :=
  ⟨⟨by decide, by decide⟩,
    (unknown_tag_treated_as_no_directive "x" (by decide) (by decide)).1⟩

/-! ## C4: required-field tracking carries no state between calls -/

/-- Schema `X4` with a single required int field. -/
def envOneReq : SEnv := [("X4", [⟨"F", .tint, true, "+"⟩])]

/-- The registry after registering `X4`. -/
def regOneReq : FnMap := (AddFuncMapGo noHooks envOneReq 5 (.tstruct "X4") []).2

/-- C4: required-field presence tracking carries no state between
constructor invocations.  `ctorRun` is the constructor closure's body
with its one piece of captured mutable state — the `required` map —
threaded explicitly (second component).  An invocation returns the
captured state unchanged (the presence phase runs on a clone), so a
second invocation after a first one behaves exactly as it would fresh,
in either order; concretely, against one registry, the invocation
supplying the required field succeeds and the one omitting it fails,
whichever ran first. -/
theorem required_tracking_is_per_invocation (sname : String)
    (req : List String) (a1 a2 : List applyFn) :
    (ctorRun sname req a1).2 = req ∧
    ctorRun sname ((ctorRun sname req a1).2) a2 = ctorRun sname req a2 ∧
    callCtor regOneReq "X4" [("F", [.vint 1])] = .ok (.vstruct "X4" [("F", .vint 1)]) ∧
    callCtor regOneReq "X4" [] = .error "X4.F required but not provided" :=
  ⟨rfl, rfl, rfl, rfl⟩

/-! ## C8: presence is tracked by invocation, not by value -/

/-- Schema `R8` with a required int field and an optional string
field. -/
def envReqInt : SEnv := [("R8", [⟨"F", .tint, true, "+"⟩, ⟨"G", .tstr, true, ""⟩])]

/-- The registry after registering `R8`. -/
def regReqInt : FnMap := (AddFuncMapGo noHooks envReqInt 5 (.tstruct "R8") []).2

/-- C8: a required field is satisfied by any invocation of its setter,
independent of the supplied value.  Every generated setter (hook, map,
slice, scalar) fed the `fieldsAreUnset` sentinel deletes exactly its
own field name, whatever the arguments; a chained setter does the
same.  Concretely, supplying the explicit zero value `0` for a
required int field counts as provided, while never invoking the
setter fails construction. -/
theorem required_satisfied_by_any_setter_invocation
    (henv : HookEnv) (fname : String) (fty : Ty) (g : savedApplyFn)
    (args : List Value) (unset : List String)
    (h : genSavedApplyFnForField henv fname fty = .ok g) :
    g args (.vsentinel unset) = .ok (.vsentinel (unset.filter (fun k => k != fname))) ∧
    (∀ (typ : Ty) (fn d : savedApplyFn),
      chainApply fname typ fn d args (.vsentinel unset) =
        .ok (.vsentinel (unset.filter (fun k => k != fname)))) ∧
    callCtor regReqInt "R8" [("F", [.vint 0])] = .ok (.vstruct "R8" [("F", .vint 0)]) ∧
    callCtor regReqInt "R8" [] = .error "R8.F required but not provided" := by
  refine ⟨?_, fun typ fn d => rfl, rfl, rfl⟩
  unfold genSavedApplyFnForField at h
  cases hh : henv fty with
  | none =>
      rw [hh] at h
      cases h
      rfl
  | some hk =>
      rw [hh] at h
      dsimp only at h
      cases hrv : hk.returnsVals with
      | true => simp [hrv] at h
      | false =>
          cases hvr : hk.valueRecv with
          | true => simp [hrv, hvr] at h
          | false =>
              simp [hrv, hvr] at h
              rw [← h]
              rfl

/-- Witness for C8: the scalar int setter, invoked with the zero
value, still deletes its name from the sentinel. -/
theorem required_satisfied_by_any_setter_invocation_witness :
    genSavedApplyFnForField noHooks "F" .tint = .ok (fieldApply "F" .tint) ∧
    fieldApply "F" .tint [.vint 0] (.vsentinel ["F", "G"]) =
      .ok (.vsentinel (["F", "G"].filter (fun k => k != "F"))) :=
  ⟨rfl, (required_satisfied_by_any_setter_invocation noHooks "F" .tint
      (fieldApply "F" .tint) [.vint 0] ["F", "G"] rfl).1⟩

/-! ## Field-update lemmas -/

theorem lookup_setAssoc_self (vals : List (String × Value)) (k : String) (v : Value) :
    (setAssoc vals k v).lookup k = some v := by
  induction vals with
  | nil => simp [setAssoc, List.lookup]
  | cons p rest ih =>
      obtain ⟨a, w⟩ := p
      by_cases hp : a = k
      · subst hp
        simp [setAssoc, List.any_cons, List.lookup]
      · have hkb : (k == a) = false := beq_eq_false_iff_ne.mpr (Ne.symm hp)
        have habk : (a == k) = false := beq_eq_false_iff_ne.mpr hp
        cases han : rest.any (fun q => q.1 == k) with
        | true =>
            have hrest := ih
            simp only [setAssoc, han, eq_self_iff_true, if_true] at hrest
            simp [setAssoc, List.any_cons, hp, habk, han, List.lookup, hkb, hrest]
        | false =>
            have hrest := ih
            simp only [setAssoc, han, Bool.false_eq_true, if_false] at hrest
            simp [setAssoc, List.any_cons, hp, habk, han, List.lookup, hkb, hrest]

theorem getFieldOr_setFieldVal (n : String) (vals : List (String × Value))
    (fname : String) (v : Value) (fty : Ty) :
    getFieldOr (setFieldVal (.vstruct n vals) fname v) fname fty = v := by
  simp [setFieldVal, getFieldOr, lookup_setAssoc_self]

/-! ## C7: sequence setters append and splice -/

/-- Spec-side splice semantics of a sequence setter's argument list:
an argument that is itself a compatible slice contributes its
elements, any other argument contributes itself. -/
def spliceArgs (et : Ty) : List Value → List Value
  | [] => []
  | a :: rest =>
      (if a.ty = .tslice et then
        (match a with | .vslice _ ys => ys | _ => [])
      else [a]) ++ spliceArgs et rest

theorem devirtAll_id (l : List Value) : devirtAll l = l := by
  induction l with
  | nil => rfl
  | cons a r ih =>
      unfold devirtAll at ih ⊢
      simp [devirt, ih]

theorem eq_vslice_of_ty {a : Value} {et : Ty} (h : a.ty = .tslice et) :
    ∃ ys, a = .vslice et ys := by
  cases a with
  | vslice e ys =>
      have he : e = et := by simpa [Value.ty] using h
      exact ⟨ys, by rw [he]⟩
  | vint n => simp [Value.ty] at h
  | vstr s => simp [Value.ty] at h
  | vbool b => simp [Value.ty] at h
  | vmap k v es => simp [Value.ty] at h
  | vstruct n vals => simp [Value.ty] at h
  | vsentinel l => simp [Value.ty] at h

theorem foldlM_sliceAppendStep (et : Ty) :
    ∀ (args : List Value), (∀ a ∈ args, a.ty = .tslice et ∨ a.ty = et) →
      ∀ acc, args.foldlM (sliceAppendStep et) acc = .ok (acc ++ spliceArgs et args)
  | [], _, acc => by simp [List.foldlM, spliceArgs, pure, Except.pure]
  | a :: rest, h, acc => by
      have hrest : ∀ b ∈ rest, b.ty = .tslice et ∨ b.ty = et :=
        fun b hb => h b (List.mem_cons_of_mem a hb)
      have ihr := foldlM_sliceAppendStep et rest hrest
      by_cases hsl : a.ty = .tslice et
      · rcases eq_vslice_of_ty hsl with ⟨ys, rfl⟩
        simp [List.foldlM, sliceAppendStep, hsl, spliceArgs, ihr, List.append_assoc,
          Bind.bind, Except.bind]
      · rcases h a (List.mem_cons_self a rest) with ha | ha
        · exact absurd ha hsl
        · have hstep : sliceAppendStep et acc a = .ok (acc ++ [a]) := by
            unfold sliceAppendStep
            rw [if_neg hsl, if_pos ha]
          simp [List.foldlM, hstep, ihr, spliceArgs, hsl, Bind.bind, Except.bind,
            List.append_assoc]

/-- Schema `T7` with an int slice field. -/
def envSliceT : SEnv := [("T7", [⟨"L", .tslice .tint, true, ""⟩])]

/-- The registry after registering `T7`. -/
def regSliceT : FnMap := (AddFuncMapGo noHooks envSliceT 5 (.tstruct "T7") []).2

/-- C7: a sequence-field setter appends across repeated applications,
and an argument that already has the field's slice type is spliced in
(concatenated) rather than appended as one element: one application
appends the spliced argument list to the current elements; a second
application appends to the result of the first; and concretely,
applying with `(1, 2, 3)` and then `(4)` yields `[1, 2, 3, 4]`. -/
theorem sequence_setter_appends_and_splices
    (fname : String) (et : Ty) (n : String) (vals : List (String × Value))
    (args1 args2 : List Value)
    (h1 : ∀ a ∈ args1, a.ty = .tslice et ∨ a.ty = et)
    (h2 : ∀ a ∈ args2, a.ty = .tslice et ∨ a.ty = et) :
    (fieldApply fname (.tslice et) args1 (.vstruct n vals) =
      .ok (setFieldVal (.vstruct n vals) fname
        (.vslice et (sliceElems (.vstruct n vals) fname et ++ spliceArgs et args1)))) ∧
    (fieldApply fname (.tslice et) args2
        (setFieldVal (.vstruct n vals) fname
          (.vslice et (sliceElems (.vstruct n vals) fname et ++ spliceArgs et args1))) =
      .ok (setFieldVal
        (setFieldVal (.vstruct n vals) fname
          (.vslice et (sliceElems (.vstruct n vals) fname et ++ spliceArgs et args1)))
        fname
        (.vslice et (sliceElems (.vstruct n vals) fname et ++ spliceArgs et args1 ++
          spliceArgs et args2)))) ∧
    callCtor regSliceT "T7" [("L", [.vint 1, .vint 2, .vint 3]), ("L", [.vint 4])] =
      .ok (.vstruct "T7" [("L", .vslice .tint [.vint 1, .vint 2, .vint 3, .vint 4])]) := by
  have hdv1 : devirtAll args1 = args1 := devirtAll_id args1
  have hdv2 : devirtAll args2 = args2 := devirtAll_id args2
  refine ⟨?_, ?_, rfl⟩
  · have hfold := foldlM_sliceAppendStep et args1 h1 (sliceElems (.vstruct n vals) fname et)
    simp [fieldApply, didMarkFieldAsSet, hdv1, hfold]
  · have hsl : sliceElems
        (setFieldVal (.vstruct n vals) fname
          (.vslice et (sliceElems (.vstruct n vals) fname et ++ spliceArgs et args1)))
        fname et =
        sliceElems (.vstruct n vals) fname et ++ spliceArgs et args1 := by
      unfold sliceElems
      rw [getFieldOr_setFieldVal]
    have hfold := foldlM_sliceAppendStep et args2 h2
      (sliceElems (.vstruct n vals) fname et ++ spliceArgs et args1)
    rw [show setFieldVal (.vstruct n vals) fname
          (.vslice et (sliceElems (.vstruct n vals) fname et ++ spliceArgs et args1)) =
        .vstruct n (setAssoc vals fname
          (.vslice et (sliceElems (.vstruct n vals) fname et ++ spliceArgs et args1)))
      from rfl] at hsl ⊢
    simp [fieldApply, didMarkFieldAsSet, hdv2, hsl, hfold, List.append_assoc]

/-! ## Characterizing flat registration

The lemmas below describe what `addFieldFuncs` does to a registry when
every processed field is "flat" (no nested schema registration, no
`TStructSet` hook): each relevant field chains its generated setter
onto whatever its name was bound to. -/

/-- One `setSavedApplyFn` step for a hook-free field, as a function of
the entry previously bound to the field's name. -/
def chainStep (rt : Ty) (f : FieldT) (o : Option Entry) : Option Entry :=
  match o with
  | none => some (.setter (fieldApply f.fname f.fty))
  | some (.setter d) =>
      some (.setter (chainApply f.fname rt (fieldApply f.fname f.fty) d))
  | some e => some e

/-- The evolution of the entry bound to `k` across a field list. -/
def chainFoldName (rt : Ty) (k : String) (o : Option Entry) :
    List FieldT → Option Entry
  | [] => o
  | f :: rest =>
      chainFoldName rt k
        (if f.relevant = true ∧ f.fname = k then chainStep rt f o else o) rest

/-- A name slot `setSavedApplyFn` accepts: empty or a setter. -/
def SetterSlot : Option Entry → Prop
  | none => True
  | some (.setter _) => True
  | _ => False

theorem chainFoldName_nomatch (rt : Ty) (k : String) :
    ∀ (fs : List FieldT) (o : Option Entry),
      (∀ f ∈ fs, ¬(f.relevant = true ∧ f.fname = k)) →
      chainFoldName rt k o fs = o
  | [], o, _ => rfl
  | f :: rest, o, h => by
      unfold chainFoldName
      rw [if_neg (h f (List.mem_cons_self f rest))]
      exact chainFoldName_nomatch rt k rest o
        (fun f' hf' => h f' (List.mem_cons_of_mem f hf'))

theorem chainFoldName_single (rt : Ty) (k : String) :
    ∀ (fs : List FieldT) (f : FieldT),
      fs.filter (fun f' => f'.relevant && f'.fname == k) = [f] →
      chainFoldName rt k none fs = some (.setter (fieldApply k f.fty))
  | [], f, h => by simp at h
  | g :: rest, f, h => by
      by_cases hg : g.relevant = true ∧ g.fname = k
      · have hgb : (g.relevant && g.fname == k) = true := by
          simp [hg.1, hg.2]
        have h' : g :: rest.filter (fun f' => f'.relevant && f'.fname == k) = [f] := by
          rw [← h]
          simp [List.filter_cons, hgb]
        injection h' with h1 h2
        subst h1
        unfold chainFoldName
        rw [if_pos hg]
        have hrest : ∀ f' ∈ rest, ¬(f'.relevant = true ∧ f'.fname = k) := by
          intro f' hf' hcon
          have : (f'.relevant && f'.fname == k) = true := by
            simp [hcon.1, hcon.2]
          have hmem : f' ∈ rest.filter (fun f' => f'.relevant && f'.fname == k) :=
            List.mem_filter.mpr ⟨hf', this⟩
          rw [h2] at hmem
          simp at hmem
        rw [chainFoldName_nomatch rt k rest _ hrest]
        unfold chainStep
        rw [hg.2]
      · have hgb : (g.relevant && g.fname == k) = false := by
          rcases Decidable.not_and_iff_or_not.mp hg with hr | hn
          · simp [Bool.and_eq_true, hr]
          · have : (g.fname == k) = false := beq_eq_false_iff_ne.mpr hn
            simp [this]
        have h' : rest.filter (fun f' => f'.relevant && f'.fname == k) = [f] := by
          rw [← h]
          simp [List.filter_cons, hgb]
        unfold chainFoldName
        rw [if_neg hg]
        exact chainFoldName_single rt k rest f h'

theorem setterSlot_chainStep (rt : Ty) (f : FieldT) (o : Option Entry)
    (h : SetterSlot o) : ∃ e, chainStep rt f o = some (.setter e) := by
  match o, h with
  | none, _ => exact ⟨_, rfl⟩
  | some (.setter d), _ => exact ⟨_, rfl⟩

theorem setSavedApplyFn_slot (m : FnMap) (fname : String) (typ : Ty)
    (fn : savedApplyFn) (h : SetterSlot (m.lookup fname)) :
    setSavedApplyFn m fname typ fn =
      .ok (insertFn m fname
        (match m.lookup fname with
         | some (.setter d) => .setter (chainApply fname typ fn d)
         | _ => .setter fn)) := by
  unfold setSavedApplyFn
  match hl : m.lookup fname, h with
  | none, _ => rfl
  | some (.setter d), _ => rfl

theorem gen_no_hook (henv : HookEnv) (fname : String) (fty : Ty)
    (h : henv fty = none) :
    genSavedApplyFnForField henv fname fty = .ok (fieldApply fname fty) := by
  unfold genSavedApplyFnForField
  rw [h]

theorem nestedRegistration_skip (recurse : Ty → FnMap → Except String FnMap)
    (fty : Ty) (m : FnMap) (hnn : nonNestedTy fty = true) :
    nestedRegistration recurse fty m = .ok m := by
  cases fty with
  | tstruct s => simp [nonNestedTy] at hnn
  | tsentinel => simp [nonNestedTy] at hnn
  | tslice e =>
      unfold nonNestedTy at hnn
      simp only [Bool.not_eq_true'] at hnn
      simp [nestedRegistration, hnn, pure, Except.pure]
  | tmap k v =>
      unfold nonNestedTy at hnn
      simp only [Bool.and_eq_true, Bool.not_eq_true'] at hnn
      simp [nestedRegistration, hnn.1, hnn.2, Bind.bind, Except.bind, pure, Except.pure]
  | tint => rfl
  | tstr => rfl
  | tbool => rfl

/-- The flat field loop: it succeeds, and the entry at every key `k`
evolves by `chainFoldName`; key-uniqueness is preserved. -/
theorem addFieldFuncs_flat (henv : HookEnv)
    (recurse : Ty → FnMap → Except String FnMap) (rt : Ty) :
    ∀ (fs : List FieldT) (m : FnMap),
      (∀ f ∈ fs, f.relevant = true → nonNestedTy f.fty = true ∧ henv f.fty = none) →
      (∀ f ∈ fs, f.relevant = true → SetterSlot (m.lookup f.fname)) →
      ∃ m', addFieldFuncs henv recurse rt fs m = .ok m' ∧
        (∀ k, m'.lookup k = chainFoldName rt k (m.lookup k) fs) ∧
        (keysNodup m → keysNodup m')
  | [], m, _, _ => ⟨m, rfl, fun _ => rfl, fun h => h⟩
  | f :: rest, m, hflat, hslot => by
      by_cases hrel : f.relevant = true
      · obtain ⟨hnn, hhook⟩ := hflat f (List.mem_cons_self f rest) hrel
        have hrel' := hrel
        unfold FieldT.relevant at hrel'
        simp only [Bool.and_eq_true, bne_iff_ne] at hrel'
        have hexp : (!f.exported) = false := by rw [hrel'.1]; rfl
        have htag : ¬(f.tag = "-") := hrel'.2
        obtain ⟨e', he'⟩ := setterSlot_chainStep rt f (m.lookup f.fname)
          (hslot f (List.mem_cons_self f rest) hrel)
        have hset : setSavedApplyFn m f.fname rt (fieldApply f.fname f.fty) =
            .ok (insertFn m f.fname (.setter e')) := by
          rw [setSavedApplyFn_slot m f.fname rt _
            (hslot f (List.mem_cons_self f rest) hrel)]
          congr 1
          have h2 := he'
          unfold chainStep at h2
          match hl : m.lookup f.fname, hslot f (List.mem_cons_self f rest) hrel with
          | none, _ =>
              rw [hl] at h2
              injection h2 with h3
              rw [← h3]
          | some (.setter d), _ =>
              rw [hl] at h2
              injection h2 with h3
              rw [← h3]
        have hslots' : ∀ g ∈ rest, g.relevant = true →
            SetterSlot ((insertFn m f.fname (.setter e')).lookup g.fname) := by
          intro g hg hgrel
          rw [lookup_insertFn]
          by_cases hgf : g.fname = f.fname
          · rw [if_pos hgf]
            exact trivial
          · rw [if_neg hgf]
            exact hslot g (List.mem_cons_of_mem f hg) hgrel
        obtain ⟨m', hm', hchar, hnd⟩ := addFieldFuncs_flat henv recurse rt rest
          (insertFn m f.fname (.setter e'))
          (fun g hg hgr => hflat g (List.mem_cons_of_mem f hg) hgr) hslots'
        have hstep : addFieldFuncs henv recurse rt (f :: rest) m =
            addFieldFuncs henv recurse rt rest (insertFn m f.fname (.setter e')) := by
          conv_lhs => rw [addFieldFuncs]
          rw [hexp]
          simp only [Bool.false_eq_true, if_false]
          rw [if_neg htag]
          rw [nestedRegistration_skip recurse f.fty m hnn,
            gen_no_hook henv f.fname f.fty hhook]
          simp only [Bind.bind, Except.bind]
          rw [hset]
        refine ⟨m', by rw [hstep]; exact hm', ?_,
          fun hnd0 => hnd (keysNodup_insertFn m f.fname (.setter e') hnd0)⟩
        intro k
        rw [hchar k]
        conv_rhs => rw [chainFoldName]
        congr 1
        rw [lookup_insertFn]
        by_cases hk : k = f.fname
        · rw [if_pos hk, if_pos ⟨hrel, hk.symm⟩, hk, he']
        · rw [if_neg hk, if_neg (fun hc => hk hc.2.symm)]
      · have hskip : addFieldFuncs henv recurse rt (f :: rest) m =
            addFieldFuncs henv recurse rt rest m := by
          conv_lhs => rw [addFieldFuncs]
          unfold FieldT.relevant at hrel
          simp only [Bool.and_eq_true, bne_iff_ne, not_and_or] at hrel
          rcases hrel with hexp | htag
          · have hexp' : (!f.exported) = true := by
              simp [Bool.not_eq_true'] at hexp ⊢
              exact hexp
            rw [hexp', if_pos rfl]
          · have htag' : f.tag = "-" := not_not.mp htag
            by_cases hexp : f.exported = true
            · have : (!f.exported) = false := by rw [hexp]; rfl
              rw [this]
              simp only [Bool.false_eq_true, if_false]
              rw [if_pos htag']
            · have hexp' : (!f.exported) = true := by
                simp [Bool.not_eq_true'] at hexp ⊢
                exact hexp
              rw [hexp', if_pos rfl]
        obtain ⟨m', hm', hchar, hnd⟩ := addFieldFuncs_flat henv recurse rt rest m
          (fun g hg hgr => hflat g (List.mem_cons_of_mem f hg) hgr)
          (fun g hg hgr => hslot g (List.mem_cons_of_mem f hg) hgr)
        refine ⟨m', by rw [hskip]; exact hm', ?_, hnd⟩
        intro k
        rw [hchar k]
        conv_rhs => rw [chainFoldName]
        rw [if_neg (fun hc => hrel hc.1)]

/-- The constructor entry `addStructFuncs` installs for `sname`. -/
def ctorEntryOf (env : SEnv) (tkind : CtorT) (sname : String) : Entry :=
  .ctor tkind (fun args => (ctorRun sname (requiredOf (envFields env sname)) args).1)

theorem registeredFuncMatches_ctor_ok (tkind ret : CtorT)
    (run : List applyFn → Except String Value) (sname : String)
    (h : ret = tkind ∨ ∃ v, run [] = .ok v ∧ v.ty = .tstruct sname) :
    registeredFuncMatches tkind (.ctor ret run) (.tstruct sname) = .ok true := by
  unfold registeredFuncMatches
  dsimp only
  by_cases he : ret = tkind
  · rw [if_pos he]
  · rw [if_neg he]
    rcases h with h | ⟨v, hv, hty⟩
    · exact absurd h he
    · simp [Bind.bind, Except.bind, hv, hty]

/-- Registering a flat struct schema: succeeds when the schema-name
slot is free (or holds a matching constructor whose probe succeeds,
for a non-generic re-registration), rebinds the schema name to the
constructor entry, and chains every relevant field's setter. -/
theorem addStructFuncs_flat (henv : HookEnv) (env : SEnv) (fuel : Nat)
    (tkind : CtorT) (sname : String) (m : FnMap)
    (hname : sname ≠ "")
    (hentry : m.lookup sname = none ∨
      (tkind ≠ .rv ∧ ∃ ret run, m.lookup sname = some (.ctor ret run) ∧
        (ret = tkind ∨ ∃ v, run [] = .ok v ∧ v.ty = .tstruct sname)))
    (hflat : ∀ f ∈ envFields env sname, f.relevant = true →
      nonNestedTy f.fty = true ∧ henv f.fty = none)
    (hslots : ∀ f ∈ envFields env sname, f.relevant = true →
      f.fname ≠ sname ∧ SetterSlot (m.lookup f.fname)) :
    ∃ m', addStructFuncs henv env (fuel+1) tkind (.tstruct sname) m = .ok m' ∧
      (∀ k, m'.lookup k = chainFoldName (.tstruct sname) k
          ((insertFn m sname (ctorEntryOf env tkind sname)).lookup k)
          (envFields env sname)) ∧
      (keysNodup m → keysNodup m') := by
  have hslots1 : ∀ f ∈ envFields env sname, f.relevant = true →
      SetterSlot ((insertFn m sname (ctorEntryOf env tkind sname)).lookup f.fname) := by
    intro f hf hrel
    rw [lookup_insertFn, if_neg (hslots f hf hrel).1]
    exact (hslots f hf hrel).2
  obtain ⟨m', hm', hchar, hnd⟩ := addFieldFuncs_flat henv
    (addStructFuncs henv env fuel .rv) (.tstruct sname) (envFields env sname)
    (insertFn m sname (ctorEntryOf env tkind sname)) hflat hslots1
  refine ⟨m', ?_, hchar, fun hnd0 =>
    hnd (keysNodup_insertFn m sname (ctorEntryOf env tkind sname) hnd0)⟩
  rw [addStructFuncs]
  dsimp only
  rw [if_neg hname]
  rcases hentry with hnone | ⟨hrv, ret, run, hsome, hmatch⟩
  · rw [hnone]
    exact hm'
  · rw [hsome]
    dsimp only
    rw [registeredFuncMatches_ctor_ok tkind ret run sname hmatch]
    simp only [Bind.bind, Except.bind, Bool.not_true, Bool.false_eq_true, if_false]
    rw [if_neg hrv]
    exact hm'

/-- Transitively re-registering a schema through the generic
(`reflect.Value`) path when a matching constructor is already
installed is a no-op: the registry comes back untouched. -/
theorem addStructFuncs_rv_noop (henv : HookEnv) (env : SEnv) (fuel : Nat)
    (sname : String) (m : FnMap) (ret : CtorT)
    (run : List applyFn → Except String Value)
    (hname : sname ≠ "")
    (hl : m.lookup sname = some (.ctor ret run))
    (hmatch : ret = .rv ∨ ∃ v, run [] = .ok v ∧ v.ty = .tstruct sname) :
    addStructFuncs henv env (fuel+1) .rv (.tstruct sname) m = .ok m := by
  rw [addStructFuncs]
  dsimp only
  rw [if_neg hname, hl]
  dsimp only
  rw [registeredFuncMatches_ctor_ok .rv ret run sname hmatch]
  simp [Bind.bind, Except.bind, pure, Except.pure]

theorem chainFoldName_eq_none (rt : Ty) (k : String) :
    ∀ (fs : List FieldT) (o : Option Entry),
      chainFoldName rt k o fs = none → o = none
  | [], _, h => h
  | f :: rest, o, h => by
      unfold chainFoldName at h
      by_cases hg : f.relevant = true ∧ f.fname = k
      · rw [if_pos hg] at h
        have h2 := chainFoldName_eq_none rt k rest _ h
        unfold chainStep at h2
        match o, h2 with
        | none, h2 => exact absurd h2 (by simp)
        | some (.setter d), h2 => exact absurd h2 (by simp)
        | some (.ctor r g), h2 => exact absurd h2 (by simp)
        | some .other, h2 => exact absurd h2 (by simp)
      · rw [if_neg hg] at h
        exact chainFoldName_eq_none rt k rest o h

/-- Registration of a flat schema through `AddFuncMap`: no error, and
the final base binds the schema name to its constructor and every
relevant field name to its (possibly chained) setter. -/
theorem AddFuncMapGo_flat (henv : HookEnv) (env : SEnv) (fuel : Nat)
    (sname : String) (base : FnMap)
    (hb : keysNodup base)
    (hname : sname ≠ "")
    (hentry : base.lookup sname = none ∨
      (∃ ret run, base.lookup sname = some (.ctor ret run) ∧
        (ret = .conc (.tstruct sname) ∨ ∃ v, run [] = .ok v ∧ v.ty = .tstruct sname)))
    (hflat : ∀ f ∈ envFields env sname, f.relevant = true →
      nonNestedTy f.fty = true ∧ henv f.fty = none)
    (hslots : ∀ f ∈ envFields env sname, f.relevant = true →
      f.fname ≠ sname ∧ SetterSlot (base.lookup f.fname)) :
    (AddFuncMapGo henv env (fuel+1) (.tstruct sname) base).1 = none ∧
    keysNodup (AddFuncMapGo henv env (fuel+1) (.tstruct sname) base).2 ∧
    ∀ k, ((AddFuncMapGo henv env (fuel+1) (.tstruct sname) base).2).lookup k =
      chainFoldName (.tstruct sname) k
        (if k = sname then some (ctorEntryOf env (.conc (.tstruct sname)) sname)
         else base.lookup k)
        (envFields env sname) := by
  have hcopy : ∀ k, (copyFuncMap [] base).lookup k = base.lookup k := by
    intro k
    rw [lookup_copyFuncMap base hb [] k]
    cases base.lookup k <;> rfl
  have hcnd : keysNodup (copyFuncMap [] base) :=
    keysNodup_copyFuncMap base [] keysNodup_nil
  obtain ⟨m', hm', hchar, hnd⟩ := addStructFuncs_flat henv env fuel
    (.conc (.tstruct sname)) sname (copyFuncMap [] base) hname
    (by
      rcases hentry with hnone | ⟨ret, run, hsome, hmatch⟩
      · exact Or.inl (by rw [hcopy]; exact hnone)
      · exact Or.inr ⟨by simp, ret, run, by rw [hcopy]; exact hsome, hmatch⟩)
    hflat
    (fun f hf hrel => ⟨(hslots f hf hrel).1, by
      rw [hcopy]; exact (hslots f hf hrel).2⟩)
  have hm'nd : keysNodup m' := hnd hcnd
  have hgo : AddFuncMapGo henv env (fuel+1) (.tstruct sname) base =
      (none, copyFuncMap base m') := by
    unfold AddFuncMapGo
    rw [show (!(Ty.tstruct sname).isStructTy) = false from rfl]
    simp only [Bool.false_eq_true, if_false]
    rw [hm']
  refine ⟨by rw [hgo], by rw [hgo]; exact keysNodup_copyFuncMap m' base hb, ?_⟩
  intro k
  rw [hgo]
  show (copyFuncMap base m').lookup k = _
  rw [lookup_copyFuncMap m' hm'nd base k]
  have hch := hchar k
  rw [lookup_insertFn] at hch
  rw [hcopy k] at hch
  cases hmk : m'.lookup k with
  | some e =>
      rw [hmk] at hch
      rw [← hch]
      rfl
  | none =>
      rw [hmk] at hch
      have hbase := chainFoldName_eq_none (.tstruct sname) k (envFields env sname) _
        hch.symm
      rw [← hch]
      by_cases hks : k = sname
      · rw [if_pos hks] at hbase
        cases hbase
      · rw [if_neg hks] at hbase
        rw [hbase]
        rfl

/-- Spec-side well-typedness of a (key, elem) pair argument list. -/
def pairsTyped (kt vt : Ty) : List Value → Bool
  | [] => true
  | k :: v :: rest =>
      decide ((devirt k).ty = kt) && decide ((devirt v).ty = vt) && pairsTyped kt vt rest
  | [_] => false

/-- Spec-side semantics of consuming a (key, elem) pair list:
successive `SetMapIndex` updates. -/
def pairsInsert (es : List (Value × Value)) : List Value → List (Value × Value)
  | [] => es
  | k :: v :: rest => pairsInsert (setMapEntry es (devirt k) (devirt v)) rest
  | [_] => es

theorem mapFieldPairs_ok (kt vt : Ty) :
    ∀ (args : List Value) (es : List (Value × Value)),
      pairsTyped kt vt args = true →
      mapFieldPairs kt vt es args = .ok (pairsInsert es args)
  | [], es, _ => rfl
  | [a], es, h => by simp [pairsTyped] at h
  | k :: v :: rest, es, h => by
      simp only [pairsTyped, Bool.and_eq_true, decide_eq_true_eq] at h
      obtain ⟨⟨hk, hv⟩, hrest⟩ := h
      unfold mapFieldPairs pairsInsert
      rw [if_pos ⟨hk, hv⟩]
      exact mapFieldPairs_ok kt vt rest _ hrest

theorem mapEntriesOf_set (n : String) (vals : List (String × Value))
    (fname : String) (kt vt : Ty) (es : List (Value × Value)) :
    mapEntriesOf (setFieldVal (.vstruct n vals) fname (.vmap kt vt (some es)))
      fname kt vt = es := by
  unfold mapEntriesOf
  rw [getFieldOr_setFieldVal]

/-- Schema `T6` with a string-to-int map field. -/
def envMapT : SEnv := [("T6", [⟨"M", .tmap .tstr .tint, true, ""⟩])]

/-- The registry after registering `T6`. -/
def regMapT : FnMap := (AddFuncMapGo noHooks envMapT 5 (.tstruct "T6") []).2

/-- C6: a map-field setter applied to a real instance allocates the
map on first use; a single argument that is itself a compatible map
has all its entries merged in; otherwise the arguments form
(key, elem) pairs and an odd count is a call-time failure; repeated
applications accumulate entries rather than replacing the map.
Concretely, `(M "a" 1)` then `(M "b" 2)` yields `{a: 1, b: 2}`. -/
theorem map_setter_semantics
    (fname : String) (kt vt : Ty) (n : String) (vals : List (String × Value))
    (args args1 args2 : List Value) (es' : List (Value × Value)) :
    ((vals.lookup fname = none ∨ vals.lookup fname = some (.vmap kt vt none)) →
      fieldApply fname (.tmap kt vt) [] (.vstruct n vals) =
        .ok (setFieldVal (.vstruct n vals) fname (.vmap kt vt (some [])))) ∧
    (singleMapArg kt vt args = some es' →
      fieldApply fname (.tmap kt vt) args (.vstruct n vals) =
        .ok (setFieldVal (.vstruct n vals) fname
          (.vmap kt vt (some (es'.foldl (fun acc p => setMapEntry acc p.1 p.2)
            (mapEntriesOf (.vstruct n vals) fname kt vt)))))) ∧
    (singleMapArg kt vt args = none → args.length % 2 = 1 →
      fieldApply fname (.tmap kt vt) args (.vstruct n vals) =
        .error ("odd number of args to " ++ fname ++
          ", expected (key, elem) pairs, got " ++ toString args.length ++ " args")) ∧
    (singleMapArg kt vt args1 = none → args1.length % 2 ≠ 1 →
      pairsTyped kt vt args1 = true →
     singleMapArg kt vt args2 = none → args2.length % 2 ≠ 1 →
      pairsTyped kt vt args2 = true →
      (fieldApply fname (.tmap kt vt) args1 (.vstruct n vals) =
        .ok (setFieldVal (.vstruct n vals) fname
          (.vmap kt vt (some (pairsInsert (mapEntriesOf (.vstruct n vals) fname kt vt)
            args1))))) ∧
      fieldApply fname (.tmap kt vt) args2
          (setFieldVal (.vstruct n vals) fname
            (.vmap kt vt (some (pairsInsert (mapEntriesOf (.vstruct n vals) fname kt vt)
              args1)))) =
        .ok (setFieldVal
          (setFieldVal (.vstruct n vals) fname
            (.vmap kt vt (some (pairsInsert (mapEntriesOf (.vstruct n vals) fname kt vt)
              args1))))
          fname
          (.vmap kt vt (some (pairsInsert
            (pairsInsert (mapEntriesOf (.vstruct n vals) fname kt vt) args1) args2))))) ∧
    callCtor regMapT "T6" [("M", [.vstr "a", .vint 1]), ("M", [.vstr "b", .vint 2])] =
      .ok (.vstruct "T6"
        [("M", .vmap .tstr .tint (some [(.vstr "a", .vint 1), (.vstr "b", .vint 2)]))]) := by
  refine ⟨?_, ?_, ?_, ?_, rfl⟩
  · intro hcur
    have hme : mapEntriesOf (.vstruct n vals) fname kt vt = [] := by
      rcases hcur with hcur | hcur <;>
        simp [mapEntriesOf, getFieldOr, hcur, zeroOfTy]
    simp [fieldApply, didMarkFieldAsSet, singleMapArg, mapFieldPairs, hme]
  · intro hsingle
    simp [fieldApply, didMarkFieldAsSet, hsingle]
  · intro hsingle hodd
    simp [fieldApply, didMarkFieldAsSet, hsingle, hodd]
  · intro hs1 ho1 ht1 hs2 ho2 ht2
    have hfp1 := mapFieldPairs_ok kt vt args1
      (mapEntriesOf (.vstruct n vals) fname kt vt) ht1
    refine ⟨by simp [fieldApply, didMarkFieldAsSet, hs1, ho1, hfp1], ?_⟩
    have hme2 := mapEntriesOf_set n vals fname kt vt
      (pairsInsert (mapEntriesOf (.vstruct n vals) fname kt vt) args1)
    rw [show setFieldVal (.vstruct n vals) fname
          (.vmap kt vt (some (pairsInsert (mapEntriesOf (.vstruct n vals) fname kt vt)
            args1))) =
        .vstruct n (setAssoc vals fname
          (.vmap kt vt (some (pairsInsert (mapEntriesOf (.vstruct n vals) fname kt vt)
            args1))))
      from rfl] at hme2 ⊢
    have hfp2 := mapFieldPairs_ok kt vt args2
      (pairsInsert (mapEntriesOf (.vstruct n vals) fname kt vt) args1) ht2
    simp [fieldApply, didMarkFieldAsSet, hs2, ho2, hme2, hfp2]

/-- Witness for C6: merging pairs across two calls on a fresh
instance. -/
theorem map_setter_semantics_witness :
    (singleMapArg .tstr .tint [Value.vstr "a", Value.vint 1] = none ∧
     ([Value.vstr "a", Value.vint 1] : List Value).length % 2 ≠ 1 ∧
     pairsTyped .tstr .tint [Value.vstr "a", Value.vint 1] = true) ∧
    fieldApply "M" (.tmap .tstr .tint) [Value.vstr "a", Value.vint 1] (.vstruct "T6" []) =
      .ok (setFieldVal (.vstruct "T6" []) "M"
        (.vmap .tstr .tint (some (pairsInsert
          (mapEntriesOf (.vstruct "T6" []) "M" .tstr .tint)
          [Value.vstr "a", Value.vint 1])))) :=
  ⟨⟨rfl, by decide, rfl⟩,
    ((map_setter_semantics "M" .tstr .tint "T6" [] [] [Value.vstr "a", Value.vint 1]
      [Value.vstr "b", Value.vint 2] []).2.2.2.1 rfl (by decide) rfl rfl (by decide) rfl).1⟩

theorem setterSlot_chainFoldName (rt : Ty) (k : String) :
    ∀ (fs : List FieldT) (o : Option Entry),
      SetterSlot o → SetterSlot (chainFoldName rt k o fs)
  | [], _, h => h
  | f :: rest, o, h => by
      unfold chainFoldName
      by_cases hg : f.relevant = true ∧ f.fname = k
      · rw [if_pos hg]
        apply setterSlot_chainFoldName
        obtain ⟨e, he⟩ := setterSlot_chainStep rt f o h
        rw [he]
        exact trivial
      · rw [if_neg hg]
        exact setterSlot_chainFoldName rt k rest o h

theorem setterSlot_or (a b : Option Entry)
    (ha : SetterSlot a) (hb : SetterSlot b) : SetterSlot (a.or b) := by
  match a, ha with
  | none, _ => exact hb
  | some (.setter g), _ => exact trivial

/-- A constructor with no required fields, probed with no arguments,
returns the zero instance. -/
theorem ctorRun_nil_ok (sname : String) :
    (ctorRun sname [] []).1 = .ok (.vstruct sname []) := rfl

/-- The field loop over a single struct-typed field: run the nested
registration, then install the field's (scalar-path) setter. -/
theorem addFieldFuncs_structField (henv : HookEnv)
    (recurse : Ty → FnMap → Except String FnMap) (rtW : Ty)
    (inner nA : String) (m mA : FnMap)
    (hhook : henv (.tstruct nA) = none)
    (hrec : recurse (.tstruct nA) m = .ok mA)
    (hslot : SetterSlot (mA.lookup inner)) :
    ∃ e', addFieldFuncs henv recurse rtW [⟨inner, .tstruct nA, true, ""⟩] m =
        .ok (insertFn mA inner (.setter e')) ∧
      chainStep rtW ⟨inner, .tstruct nA, true, ""⟩ (mA.lookup inner) =
        some (.setter e') := by
  obtain ⟨e', he'⟩ := setterSlot_chainStep rtW ⟨inner, .tstruct nA, true, ""⟩
    (mA.lookup inner) hslot
  refine ⟨e', ?_, he'⟩
  conv_lhs => rw [addFieldFuncs]
  rw [show (!(⟨inner, .tstruct nA, true, ""⟩ : FieldT).exported) = false from rfl]
  simp only [Bool.false_eq_true, if_false]
  rw [if_neg (show ¬(("" : String) = "-") from by decide)]
  rw [show nestedRegistration recurse (⟨inner, .tstruct nA, true, ""⟩ : FieldT).fty m =
      recurse (.tstruct nA) m from rfl]
  rw [hrec, gen_no_hook henv inner (.tstruct nA) hhook]
  simp only [Bind.bind, Except.bind]
  rw [setSavedApplyFn_slot mA inner rtW (fieldApply inner (.tstruct nA)) hslot]
  have h2 := he'
  unfold chainStep at h2
  match hl : mA.lookup inner, hslot with
  | none, _ =>
      rw [hl] at h2
      injection h2 with h3
      rw [← h3]
      rfl
  | some (.setter d), _ =>
      rw [hl] at h2
      injection h2 with h3
      rw [← h3]
      rfl

/-- Registering the wrapper schema `nW` with single field
`inner : nA`: the nested registration runs first, then `inner`'s
setter is installed. -/
theorem addStructFuncs_wrapper (henv : HookEnv) (env : SEnv) (fuel : Nat)
    (tkind : CtorT) (nW inner nA : String) (m mA : FnMap)
    (hEW : envFields env nW = [⟨inner, .tstruct nA, true, ""⟩])
    (hnW : nW ≠ "")
    (hWnew : m.lookup nW = none)
    (hhookA : henv (.tstruct nA) = none)
    (hrec : addStructFuncs henv env fuel .rv (.tstruct nA)
      (insertFn m nW (ctorEntryOf env tkind nW)) = .ok mA)
    (hslot : SetterSlot (mA.lookup inner)) :
    ∃ e', addStructFuncs henv env (fuel+1) tkind (.tstruct nW) m =
      .ok (insertFn mA inner (.setter e')) := by
  obtain ⟨e', hfe, _⟩ := addFieldFuncs_structField henv
    (addStructFuncs henv env fuel .rv) (.tstruct nW) inner nA
    (insertFn m nW (ctorEntryOf env tkind nW)) mA hhookA hrec hslot
  refine ⟨e', ?_⟩
  have hfe' := hfe
  unfold ctorEntryOf at hfe'
  rw [hEW] at hfe'
  rw [addStructFuncs]
  dsimp only
  rw [if_neg hnW, hWnew, hEW]
  dsimp only
  exact hfe'

/-- Lifting an `addStructFuncs` run through the `AddFuncMap`
private-copy-and-merge wrapper. -/
theorem AddFuncMapGo_of_addStructFuncs (henv : HookEnv) (env : SEnv) (fuel : Nat)
    (sname : String) (base m' : FnMap)
    (hb : keysNodup base) (hnd' : keysNodup m')
    (hrun : addStructFuncs henv env fuel (.conc (.tstruct sname)) (.tstruct sname)
      (copyFuncMap [] base) = .ok m') :
    (AddFuncMapGo henv env fuel (.tstruct sname) base).1 = none ∧
    keysNodup (AddFuncMapGo henv env fuel (.tstruct sname) base).2 ∧
    ∀ k, ((AddFuncMapGo henv env fuel (.tstruct sname) base).2).lookup k =
      (m'.lookup k).or (base.lookup k) := by
  have hgo : AddFuncMapGo henv env fuel (.tstruct sname) base =
      (none, copyFuncMap base m') := by
    unfold AddFuncMapGo
    rw [show (!(Ty.tstruct sname).isStructTy) = false from rfl]
    simp only [Bool.false_eq_true, if_false]
    rw [hrun]
  refine ⟨by rw [hgo], by rw [hgo]; exact keysNodup_copyFuncMap m' base hb, ?_⟩
  intro k
  rw [hgo]
  exact lookup_copyFuncMap m' hnd' base k

/-- Both registration orders for a flat schema `nA` (no required
fields) and a wrapper schema `nW` with single field `inner : nA`:
both `AddFuncMap` calls succeed in either order, and the final entry
for `nA` is the concretely typed constructor. -/
theorem wrapper_scenario (henv : HookEnv) (env : SEnv) (fuel : Nat)
    (nA nW inner : String) (fsA : List FieldT)
    (hEA : envFields env nA = fsA)
    (hEW : envFields env nW = [⟨inner, .tstruct nA, true, ""⟩])
    (hnA : nA ≠ "") (hnW : nW ≠ "") (hAW : nA ≠ nW)
    (hflatA : ∀ f ∈ fsA, f.relevant = true →
      nonNestedTy f.fty = true ∧ henv f.fty = none)
    (hfnA : ∀ f ∈ fsA, f.relevant = true → f.fname ≠ nA ∧ f.fname ≠ nW)
    (hinner : inner ≠ nA ∧ inner ≠ nW)
    (hreqA : requiredOf fsA = [])
    (hhookA : henv (.tstruct nA) = none) :
    (AddFuncMapGo henv env (fuel+1+1) (.tstruct nA) []).1 = none ∧
    (AddFuncMapGo henv env (fuel+1+1) (.tstruct nW)
      (AddFuncMapGo henv env (fuel+1+1) (.tstruct nA) []).2).1 = none ∧
    ((AddFuncMapGo henv env (fuel+1+1) (.tstruct nW)
      (AddFuncMapGo henv env (fuel+1+1) (.tstruct nA) []).2).2).lookup nA =
      some (ctorEntryOf env (.conc (.tstruct nA)) nA) ∧
    (AddFuncMapGo henv env (fuel+1+1) (.tstruct nW) []).1 = none ∧
    (AddFuncMapGo henv env (fuel+1+1) (.tstruct nA)
      (AddFuncMapGo henv env (fuel+1+1) (.tstruct nW) []).2).1 = none ∧
    ((AddFuncMapGo henv env (fuel+1+1) (.tstruct nA)
      (AddFuncMapGo henv env (fuel+1+1) (.tstruct nW) []).2).2).lookup nA =
      some (ctorEntryOf env (.conc (.tstruct nA)) nA) := by
  have hreq' : requiredOf (envFields env nA) = [] := by rw [hEA]; exact hreqA
  have hprobe : (fun args => (ctorRun nA (requiredOf (envFields env nA)) args).1) []
      = Except.ok (Value.vstruct nA []) := by
    show (ctorRun nA (requiredOf (envFields env nA)) []).1 = _
    rw [hreq']
    exact ctorRun_nil_ok nA
  have hnomatchA : ∀ (k : String), (∀ f ∈ fsA, f.relevant = true → f.fname ≠ k) →
      ∀ o, chainFoldName (.tstruct nA) k o fsA = o :=
    fun k hk o => chainFoldName_nomatch (.tstruct nA) k fsA o
      (fun f hf hcon => hk f hf hcon.1 hcon.2)
  -- ===== order 1: A then W =====
  obtain ⟨hokA, hndA, hcharA⟩ := AddFuncMapGo_flat henv env (fuel+1) nA []
    keysNodup_nil hnA (Or.inl rfl)
    (by rw [hEA]; exact hflatA)
    (by rw [hEA]; intro f hf hrel; exact ⟨(hfnA f hf hrel).1, trivial⟩)
  have hbAnA : ((AddFuncMapGo henv env (fuel+1+1) (.tstruct nA) []).2).lookup nA =
      some (ctorEntryOf env (.conc (.tstruct nA)) nA) := by
    rw [hcharA nA, if_pos rfl, hEA]
    exact hnomatchA nA (fun f hf hrel => (hfnA f hf hrel).1) _
  have hbAnW : ((AddFuncMapGo henv env (fuel+1+1) (.tstruct nA) []).2).lookup nW =
      none := by
    rw [hcharA nW, if_neg (Ne.symm hAW), hEA]
    rw [hnomatchA nW (fun f hf hrel => (hfnA f hf hrel).2) _]
    rfl
  have hbAslot : ∀ k, k ≠ nA →
      SetterSlot (((AddFuncMapGo henv env (fuel+1+1) (.tstruct nA) []).2).lookup k) := by
    intro k hk
    rw [hcharA k, if_neg hk, hEA]
    apply setterSlot_chainFoldName
    exact trivial
  have hcw : ∀ k, (copyFuncMap []
      (AddFuncMapGo henv env (fuel+1+1) (.tstruct nA) []).2).lookup k =
      ((AddFuncMapGo henv env (fuel+1+1) (.tstruct nA) []).2).lookup k := by
    intro k
    rw [lookup_copyFuncMap _ hndA [] k]
    cases ((AddFuncMapGo henv env (fuel+1+1) (.tstruct nA) []).2).lookup k <;> rfl
  have hcwnd : keysNodup (copyFuncMap []
      (AddFuncMapGo henv env (fuel+1+1) (.tstruct nA) []).2) :=
    keysNodup_copyFuncMap _ [] keysNodup_nil
  have hmW1nA : (insertFn (copyFuncMap []
        (AddFuncMapGo henv env (fuel+1+1) (.tstruct nA) []).2) nW
        (ctorEntryOf env (.conc (.tstruct nW)) nW)).lookup nA =
      some (ctorEntryOf env (.conc (.tstruct nA)) nA) := by
    rw [lookup_insertFn, if_neg hAW, hcw]
    exact hbAnA
  have hnoop := addStructFuncs_rv_noop henv env fuel nA
    (insertFn (copyFuncMap [] (AddFuncMapGo henv env (fuel+1+1) (.tstruct nA) []).2)
      nW (ctorEntryOf env (.conc (.tstruct nW)) nW))
    (.conc (.tstruct nA))
    (fun args => (ctorRun nA (requiredOf (envFields env nA)) args).1) hnA
    (hmW1nA.trans rfl)
    (Or.inr ⟨.vstruct nA [], hprobe, rfl⟩)
  have hWnew1 : (copyFuncMap []
      (AddFuncMapGo henv env (fuel+1+1) (.tstruct nA) []).2).lookup nW = none := by
    rw [hcw]
    exact hbAnW
  have hslotInner1 : SetterSlot ((insertFn (copyFuncMap []
        (AddFuncMapGo henv env (fuel+1+1) (.tstruct nA) []).2) nW
        (ctorEntryOf env (.conc (.tstruct nW)) nW)).lookup inner) := by
    rw [lookup_insertFn, if_neg hinner.2, hcw]
    exact hbAslot inner hinner.1
  obtain ⟨e1, hW1⟩ := addStructFuncs_wrapper henv env (fuel+1) (.conc (.tstruct nW))
    nW inner nA
    (copyFuncMap [] (AddFuncMapGo henv env (fuel+1+1) (.tstruct nA) []).2)
    (insertFn (copyFuncMap [] (AddFuncMapGo henv env (fuel+1+1) (.tstruct nA) []).2)
      nW (ctorEntryOf env (.conc (.tstruct nW)) nW))
    hEW hnW hWnew1 hhookA hnoop hslotInner1
  have hnd1 : keysNodup (insertFn
      (insertFn (copyFuncMap [] (AddFuncMapGo henv env (fuel+1+1) (.tstruct nA) []).2)
        nW (ctorEntryOf env (.conc (.tstruct nW)) nW))
      inner (.setter e1)) :=
    keysNodup_insertFn _ _ _ (keysNodup_insertFn _ _ _ hcwnd)
  obtain ⟨hokW, hndW, hcharW⟩ := AddFuncMapGo_of_addStructFuncs henv env (fuel+1+1)
    nW (AddFuncMapGo henv env (fuel+1+1) (.tstruct nA) []).2 _ hndA hnd1 hW1
  have hfin1 : ((AddFuncMapGo henv env (fuel+1+1) (.tstruct nW)
      (AddFuncMapGo henv env (fuel+1+1) (.tstruct nA) []).2).2).lookup nA =
      some (ctorEntryOf env (.conc (.tstruct nA)) nA) := by
    rw [hcharW nA, lookup_insertFn, if_neg (Ne.symm hinner.1), hmW1nA]
    rfl
  -- ===== order 2: W then A =====
  obtain ⟨mA0, hA0, hcharA0, hndA0⟩ := addStructFuncs_flat henv env fuel .rv nA
    (insertFn (copyFuncMap [] ([] : FnMap)) nW (ctorEntryOf env (.conc (.tstruct nW)) nW))
    hnA
    (Or.inl (by rw [lookup_insertFn, if_neg hAW]; rfl))
    (by rw [hEA]; exact hflatA)
    (by
      rw [hEA]
      intro f hf hrel
      refine ⟨(hfnA f hf hrel).1, ?_⟩
      rw [lookup_insertFn, if_neg (hfnA f hf hrel).2]
      exact trivial)
  have hslotInner0 : SetterSlot (mA0.lookup inner) := by
    rw [hcharA0 inner, hEA]
    apply setterSlot_chainFoldName
    rw [lookup_insertFn, if_neg hinner.1, lookup_insertFn, if_neg hinner.2]
    exact trivial
  obtain ⟨e0, hW0⟩ := addStructFuncs_wrapper henv env (fuel+1) (.conc (.tstruct nW))
    nW inner nA (copyFuncMap [] ([] : FnMap)) mA0 hEW hnW rfl hhookA hA0 hslotInner0
  have hndmA0 : keysNodup mA0 :=
    hndA0 (keysNodup_insertFn _ _ _ keysNodup_nil)
  obtain ⟨hokW0, hndW0, hcharW0⟩ := AddFuncMapGo_of_addStructFuncs henv env (fuel+1+1)
    nW [] (insertFn mA0 inner (.setter e0)) keysNodup_nil
    (keysNodup_insertFn _ _ _ hndmA0) hW0
  have hb1nA : ((AddFuncMapGo henv env (fuel+1+1) (.tstruct nW) []).2).lookup nA =
      some (ctorEntryOf env .rv nA) := by
    rw [hcharW0 nA, lookup_insertFn, if_neg (Ne.symm hinner.1)]
    rw [hcharA0 nA, hEA, hnomatchA nA (fun f hf hrel => (hfnA f hf hrel).1) _]
    rw [lookup_insertFn, if_pos rfl]
    rfl
  have hslots2 : ∀ f ∈ envFields env nA, f.relevant = true → f.fname ≠ nA ∧
      SetterSlot (((AddFuncMapGo henv env (fuel+1+1) (.tstruct nW) []).2).lookup
        f.fname) := by
    rw [hEA]
    intro f hf hrel
    refine ⟨(hfnA f hf hrel).1, ?_⟩
    rw [hcharW0 f.fname]
    apply setterSlot_or
    · rw [lookup_insertFn]
      by_cases hfi : f.fname = inner
      · rw [if_pos hfi]
        exact trivial
      · rw [if_neg hfi]
        rw [hcharA0 f.fname, hEA]
        apply setterSlot_chainFoldName
        rw [lookup_insertFn, if_neg (hfnA f hf hrel).1,
          lookup_insertFn, if_neg (hfnA f hf hrel).2]
        exact trivial
    · exact trivial
  obtain ⟨hokA2, hndA2, hcharA2⟩ := AddFuncMapGo_flat henv env (fuel+1) nA
    (AddFuncMapGo henv env (fuel+1+1) (.tstruct nW) []).2 hndW0 hnA
    (Or.inr ⟨.rv, (fun args => (ctorRun nA (requiredOf (envFields env nA)) args).1),
      hb1nA.trans rfl, Or.inr ⟨.vstruct nA [], hprobe, rfl⟩⟩)
    (by rw [hEA]; exact hflatA) hslots2
  have hfin2 : ((AddFuncMapGo henv env (fuel+1+1) (.tstruct nA)
      (AddFuncMapGo henv env (fuel+1+1) (.tstruct nW) []).2).2).lookup nA =
      some (ctorEntryOf env (.conc (.tstruct nA)) nA) := by
    rw [hcharA2 nA, if_pos rfl, hEA]
    exact hnomatchA nA (fun f hf hrel => (hfnA f hf hrel).1) _
  exact ⟨hokA, hokW, hfin1, hokW0, hokA2, hfin2⟩

/-- C5 amended: re-registration of a structurally identical schema —
directly or transitively via a containing struct whose field type is
the schema — succeeds in either order, provided the re-registered
schema has no required fields (with required fields the zero-argument
constructor probe of `registeredFuncMatches` panics instead). -/
theorem reregistration_without_required_fields_succeeds
    (henv : HookEnv) (env : SEnv) (fuel : Nat)
    (nA nW inner : String) (fsA : List FieldT)
    (hEA : envFields env nA = fsA)
    (hEW : envFields env nW = [⟨inner, .tstruct nA, true, ""⟩])
    (hnA : nA ≠ "") (hnW : nW ≠ "") (hAW : nA ≠ nW)
    (hflatA : ∀ f ∈ fsA, f.relevant = true →
      nonNestedTy f.fty = true ∧ henv f.fty = none)
    (hfnA : ∀ f ∈ fsA, f.relevant = true → f.fname ≠ nA ∧ f.fname ≠ nW)
    (hinner : inner ≠ nA ∧ inner ≠ nW)
    (hreqA : requiredOf fsA = [])
    (hhookA : henv (.tstruct nA) = none) :
    ((AddFuncMapGo henv env (fuel+1+1) (.tstruct nA) []).1 = none ∧
     (AddFuncMapGo henv env (fuel+1+1) (.tstruct nW)
       (AddFuncMapGo henv env (fuel+1+1) (.tstruct nA) []).2).1 = none) ∧
    ((AddFuncMapGo henv env (fuel+1+1) (.tstruct nW) []).1 = none ∧
     (AddFuncMapGo henv env (fuel+1+1) (.tstruct nA)
       (AddFuncMapGo henv env (fuel+1+1) (.tstruct nW) []).2).1 = none) := by
  obtain ⟨h1, h2, _, h4, h5, _⟩ := wrapper_scenario henv env fuel nA nW inner fsA
    hEA hEW hnA hnW hAW hflatA hfnA hinner hreqA hhookA
  exact ⟨⟨h1, h2⟩, ⟨h4, h5⟩⟩

/-- Schema `A` (one plain int field) and its wrapper `W`. -/
def envWA : SEnv :=
  [("A", [⟨"F", .tint, true, ""⟩]),
   ("W", [⟨"Inner", .tstruct "A", true, ""⟩])]

/-- Witness for the amended C5 at the concrete `A`/`W` pair. -/
theorem reregistration_without_required_fields_succeeds_witness :
    ((AddFuncMapGo noHooks envWA 5 (.tstruct "A") []).1 = none ∧
     (AddFuncMapGo noHooks envWA 5 (.tstruct "W")
       (AddFuncMapGo noHooks envWA 5 (.tstruct "A") []).2).1 = none) ∧
    ((AddFuncMapGo noHooks envWA 5 (.tstruct "W") []).1 = none ∧
     (AddFuncMapGo noHooks envWA 5 (.tstruct "A")
       (AddFuncMapGo noHooks envWA 5 (.tstruct "W") []).2).1 = none) :=
  reregistration_without_required_fields_succeeds noHooks envWA 3 "A" "W" "Inner"
    [⟨"F", .tint, true, ""⟩] rfl rfl (by decide) (by decide) (by decide)
    (by
      intro f hf hrel
      simp only [List.mem_singleton] at hf
      subst hf
      exact ⟨rfl, rfl⟩)
    (by
      intro f hf hrel
      simp only [List.mem_singleton] at hf
      subst hf
      exact ⟨by decide, by decide⟩)
    ⟨by decide, by decide⟩ rfl rfl

/-- C10: a registry entry's constructor is never made less precisely
typed by later registrations.  After registering the concrete schema
`nA`, its entry is the concretely typed constructor
(`func(...applyFn) A`, i.e. `CtorT.conc`); a subsequent registration
that reaches `nA` through the generic nested-schema path
(`reflect.Value`) leaves the concrete constructor in place instead of
overwriting it, and in the reverse order the concrete registration
replaces the generic entry — in both orders the final entry for `nA`
is the concretely typed constructor. -/
theorem constructor_entry_stays_concretely_typed
    (henv : HookEnv) (env : SEnv) (fuel : Nat)
    (nA nW inner : String) (fsA : List FieldT)
    (hEA : envFields env nA = fsA)
    (hEW : envFields env nW = [⟨inner, .tstruct nA, true, ""⟩])
    (hnA : nA ≠ "") (hnW : nW ≠ "") (hAW : nA ≠ nW)
    (hflatA : ∀ f ∈ fsA, f.relevant = true →
      nonNestedTy f.fty = true ∧ henv f.fty = none)
    (hfnA : ∀ f ∈ fsA, f.relevant = true → f.fname ≠ nA ∧ f.fname ≠ nW)
    (hinner : inner ≠ nA ∧ inner ≠ nW)
    (hreqA : requiredOf fsA = [])
    (hhookA : henv (.tstruct nA) = none) :
    ((AddFuncMapGo henv env (fuel+1+1) (.tstruct nA) []).2).lookup nA =
      some (ctorEntryOf env (.conc (.tstruct nA)) nA) ∧
    ((AddFuncMapGo henv env (fuel+1+1) (.tstruct nW)
      (AddFuncMapGo henv env (fuel+1+1) (.tstruct nA) []).2).2).lookup nA =
      some (ctorEntryOf env (.conc (.tstruct nA)) nA) ∧
    ((AddFuncMapGo henv env (fuel+1+1) (.tstruct nA)
      (AddFuncMapGo henv env (fuel+1+1) (.tstruct nW) []).2).2).lookup nA =
      some (ctorEntryOf env (.conc (.tstruct nA)) nA) := by
  obtain ⟨_, _, h3, _, _, h6⟩ := wrapper_scenario henv env fuel nA nW inner fsA
    hEA hEW hnA hnW hAW hflatA hfnA hinner hreqA hhookA
  obtain ⟨hokA, hndA, hcharA⟩ := AddFuncMapGo_flat henv env (fuel+1) nA []
    keysNodup_nil hnA (Or.inl rfl)
    (by rw [hEA]; exact hflatA)
    (by rw [hEA]; intro f hf hrel; exact ⟨(hfnA f hf hrel).1, trivial⟩)
  refine ⟨?_, h3, h6⟩
  rw [hcharA nA, if_pos rfl, hEA]
  exact chainFoldName_nomatch _ _ fsA _
    (fun f hf hcon => (hfnA f hf hcon.1).1 hcon.2)

/-- Witness for C10 at the concrete `A`/`W` pair: the final entry for
`A` after both registration orders is the concretely typed
constructor. -/
theorem constructor_entry_stays_concretely_typed_witness :
    ((AddFuncMapGo noHooks envWA 5 (.tstruct "A") []).2).lookup "A" =
      some (ctorEntryOf envWA (.conc (.tstruct "A")) "A") ∧
    ((AddFuncMapGo noHooks envWA 5 (.tstruct "W")
      (AddFuncMapGo noHooks envWA 5 (.tstruct "A") []).2).2).lookup "A" =
      some (ctorEntryOf envWA (.conc (.tstruct "A")) "A") ∧
    ((AddFuncMapGo noHooks envWA 5 (.tstruct "A")
      (AddFuncMapGo noHooks envWA 5 (.tstruct "W") []).2).2).lookup "A" =
      some (ctorEntryOf envWA (.conc (.tstruct "A")) "A") :=
  constructor_entry_stays_concretely_typed noHooks envWA 3 "A" "W" "Inner"
    [⟨"F", .tint, true, ""⟩] rfl rfl (by decide) (by decide) (by decide)
    (by
      intro f hf hrel
      simp only [List.mem_singleton] at hf
      subst hf
      exact ⟨rfl, rfl⟩)
    (by
      intro f hf hrel
      simp only [List.mem_singleton] at hf
      subst hf
      exact ⟨by decide, by decide⟩)
    ⟨by decide, by decide⟩ rfl rfl

/-! ## C3: the aggregated required-field error -/

/-- Spec-side calling convention check: the argument lists a generated
setter accepts without a call-time panic, by field kind. -/
def argsOKB (fty : Ty) (args : List Value) : Bool :=
  match fty with
  | .tmap kt vt =>
      (singleMapArg kt vt args).isSome ||
      (decide (args.length % 2 ≠ 1) && pairsTyped kt vt args)
  | .tslice et => args.all (fun a => decide (a.ty = .tslice et) || decide (a.ty = et))
  | .tbool =>
      match args with
      | [] => true
      | [a] => decide ((devirt a).ty = .tbool)
      | _ => false
  | t =>
      match args with
      | [a] => decide ((devirt a).ty = t)
      | _ => false

/-- A generated setter with acceptable arguments, applied to a real
struct instance, succeeds and returns a struct instance. -/
theorem fieldApply_ok (fname : String) (fty : Ty) (args : List Value)
    (n : String) (vals : List (String × Value))
    (h : argsOKB fty args = true) :
    ∃ vals', fieldApply fname fty args (.vstruct n vals) = .ok (.vstruct n vals') := by
  cases fty with
  | tmap kt vt =>
      simp only [argsOKB, Bool.or_eq_true] at h
      rcases h with h | h
      · obtain ⟨es', hes⟩ := Option.isSome_iff_exists.mp h
        refine ⟨setAssoc vals fname (.vmap kt vt (some (es'.foldl
          (fun acc p => setMapEntry acc p.1 p.2)
          (mapEntriesOf (.vstruct n vals) fname kt vt)))), ?_⟩
        simp only [fieldApply, didMarkFieldAsSet, hes, setFieldVal]
      · rw [Bool.and_eq_true, decide_eq_true_eq] at h
        obtain ⟨hodd, htyped⟩ := h
        cases hsingle : singleMapArg kt vt args with
        | some es' =>
            refine ⟨setAssoc vals fname (.vmap kt vt (some (es'.foldl
              (fun acc p => setMapEntry acc p.1 p.2)
              (mapEntriesOf (.vstruct n vals) fname kt vt)))), ?_⟩
            simp only [fieldApply, didMarkFieldAsSet, hsingle, setFieldVal]
        | none =>
            have hfp := mapFieldPairs_ok kt vt args
              (mapEntriesOf (.vstruct n vals) fname kt vt) htyped
            refine ⟨setAssoc vals fname (.vmap kt vt (some (pairsInsert
              (mapEntriesOf (.vstruct n vals) fname kt vt) args))), ?_⟩
            simp only [fieldApply, didMarkFieldAsSet, hsingle, if_neg hodd, hfp,
              setFieldVal]
  | tslice et =>
      simp only [argsOKB] at h
      have h' : ∀ a ∈ args, a.ty = .tslice et ∨ a.ty = et := by
        intro a ha
        have h2 := List.all_eq_true.mp h a ha
        simpa using h2
      have hfold := foldlM_sliceAppendStep et args h'
        (sliceElems (.vstruct n vals) fname et)
      refine ⟨setAssoc vals fname (.vslice et (sliceElems (.vstruct n vals) fname et ++
        spliceArgs et args)), ?_⟩
      simp only [fieldApply, didMarkFieldAsSet, devirtAll_id, hfold, setFieldVal]
  | tbool =>
      rcases args with _ | ⟨a, _ | ⟨b, r⟩⟩
      · refine ⟨setAssoc vals fname (.vbool true), ?_⟩
        simp only [fieldApply, didMarkFieldAsSet, convertVal, devirt, Value.ty,
          setFieldVal]
        rfl
      · simp only [argsOKB, decide_eq_true_eq] at h
        refine ⟨setAssoc vals fname (devirt a), ?_⟩
        simp only [fieldApply, didMarkFieldAsSet, convertVal, if_pos h, setFieldVal]
      · simp [argsOKB] at h
  | tint =>
      rcases args with _ | ⟨a, _ | ⟨b, r⟩⟩
      · simp [argsOKB] at h
      · simp only [argsOKB, decide_eq_true_eq] at h
        refine ⟨setAssoc vals fname (devirt a), ?_⟩
        simp only [fieldApply, didMarkFieldAsSet, convertVal, if_pos h, setFieldVal]
      · simp [argsOKB] at h
  | tstr =>
      rcases args with _ | ⟨a, _ | ⟨b, r⟩⟩
      · simp [argsOKB] at h
      · simp only [argsOKB, decide_eq_true_eq] at h
        refine ⟨setAssoc vals fname (devirt a), ?_⟩
        simp only [fieldApply, didMarkFieldAsSet, convertVal, if_pos h, setFieldVal]
      · simp [argsOKB] at h
  | tstruct s =>
      rcases args with _ | ⟨a, _ | ⟨b, r⟩⟩
      · simp [argsOKB] at h
      · simp only [argsOKB, decide_eq_true_eq] at h
        refine ⟨setAssoc vals fname (devirt a), ?_⟩
        simp only [fieldApply, didMarkFieldAsSet, convertVal, if_pos h, setFieldVal]
      · simp [argsOKB] at h
  | tsentinel =>
      rcases args with _ | ⟨a, _ | ⟨b, r⟩⟩
      · simp [argsOKB] at h
      · simp only [argsOKB, decide_eq_true_eq] at h
        refine ⟨setAssoc vals fname (devirt a), ?_⟩
        simp only [fieldApply, didMarkFieldAsSet, convertVal, if_pos h, setFieldVal]
      · simp [argsOKB] at h

/-- The presence phase: feeding the sentinel to the apply steps built
from generated setters deletes exactly the called field names. -/
theorem foldlM_steps_sentinel (m : FnMap) :
    ∀ (calls : List (String × List Value)),
      (∀ c ∈ calls, ∃ fty, m.lookup c.1 = some (.setter (fieldApply c.1 fty))) →
      ∀ unset, (mkSteps m calls).foldlM (fun s a => a s) (Value.vsentinel unset) =
        .ok (.vsentinel (unset.filter (fun s => calls.all (fun c => s != c.1))))
  | [], _, unset => by
      simp [mkSteps, List.foldlM, pure, Except.pure]
  | c :: rest, h, unset => by
      obtain ⟨fty, hc⟩ := h c (List.mem_cons_self c rest)
      have ih := foldlM_steps_sentinel m rest
        (fun c' h' => h c' (List.mem_cons_of_mem c h'))
        (unset.filter (fun s => s != c.1))
      have hstep : lookupSetter m c (Value.vsentinel unset) =
          .ok (.vsentinel (unset.filter (fun s => s != c.1))) := by
        unfold lookupSetter
        rw [hc]
        rfl
      rw [show mkSteps m (c :: rest) = lookupSetter m c :: mkSteps m rest from rfl]
      simp only [List.foldlM, Bind.bind, Except.bind]
      rw [hstep]
      dsimp only
      rw [ih]
      congr 2
      rw [List.filter_filter]
      apply List.filter_congr
      intro s hs
      simp [List.all_cons, Bool.and_comm]

/-- The apply phase: feeding a real instance to apply steps built from
generated setters with acceptable arguments succeeds. -/
theorem foldlM_steps_ok (m : FnMap) :
    ∀ (calls : List (String × List Value)),
      (∀ c ∈ calls, ∃ fty, m.lookup c.1 = some (.setter (fieldApply c.1 fty)) ∧
        argsOKB fty c.2 = true) →
      ∀ (n : String) (vals : List (String × Value)),
        ∃ vals', (mkSteps m calls).foldlM (fun s a => a s) (Value.vstruct n vals) =
          .ok (.vstruct n vals')
  | [], _, n, vals => ⟨vals, by simp [mkSteps, List.foldlM, pure, Except.pure]⟩
  | c :: rest, h, n, vals => by
      obtain ⟨fty, hc, hok⟩ := h c (List.mem_cons_self c rest)
      obtain ⟨vals1, h1⟩ := fieldApply_ok c.1 fty c.2 n vals hok
      obtain ⟨vals', h2⟩ := foldlM_steps_ok m rest
        (fun c' h' => h c' (List.mem_cons_of_mem c h')) n vals1
      refine ⟨vals', ?_⟩
      rw [show mkSteps m (c :: rest) = lookupSetter m c :: mkSteps m rest from rfl]
      simp only [List.foldlM, Bind.bind, Except.bind]
      rw [show lookupSetter m c (Value.vstruct n vals) =
          fieldApply c.1 fty c.2 (Value.vstruct n vals) from by
        unfold lookupSetter; rw [hc]]
      rw [h1]
      dsimp only
      exact h2

/-- C3: constructing a schema with required fields aggregates all the
still-missing ones into a single error.  After registering a flat
schema, invoking its constructor with any sequence of well-formed
field calls fails exactly when some required field was never called,
and the error message lists every missing field qualified as
`SchemaName.FieldName`, sorted lexicographically, joined with ", ",
followed by " required but not provided"; if every required field's
setter was invoked, construction succeeds. -/
theorem required_fields_error_aggregated
    (henv : HookEnv) (env : SEnv) (fuel : Nat) (sname : String)
    (calls : List (String × List Value))
    (hname : sname ≠ "")
    (hflat : ∀ f ∈ envFields env sname, f.relevant = true →
      nonNestedTy f.fty = true ∧ henv f.fty = none)
    (hfn : ∀ f ∈ envFields env sname, f.relevant = true → f.fname ≠ sname)
    (hcalls : ∀ c ∈ calls, ∃ f : FieldT,
      (envFields env sname).filter (fun f' => f'.relevant && f'.fname == c.1) = [f] ∧
      argsOKB f.fty c.2 = true) :
    (AddFuncMapGo henv env (fuel+1) (.tstruct sname) []).1 = none ∧
    (((requiredOf (envFields env sname)).filter
        (fun s => calls.all (fun c => s != c.1))) ≠ [] →
      callCtor (AddFuncMapGo henv env (fuel+1) (.tstruct sname) []).2 sname calls =
        .error (String.intercalate ", "
          (sortStrings (((requiredOf (envFields env sname)).filter
            (fun s => calls.all (fun c => s != c.1))).map
            (fun s => sname ++ "." ++ s))) ++
          " required but not provided") ∧
      List.Sorted (· ≤ ·)
        (sortStrings (((requiredOf (envFields env sname)).filter
          (fun s => calls.all (fun c => s != c.1))).map
          (fun s => sname ++ "." ++ s)))) ∧
    (((requiredOf (envFields env sname)).filter
        (fun s => calls.all (fun c => s != c.1))) = [] →
      ∃ v, callCtor (AddFuncMapGo henv env (fuel+1) (.tstruct sname) []).2
        sname calls = .ok v) := by
  obtain ⟨hok, hnd, hchar⟩ := AddFuncMapGo_flat henv env fuel sname [] keysNodup_nil
    hname (Or.inl rfl) hflat
    (fun f hf hrel => ⟨hfn f hf hrel, trivial⟩)
  have hsetters : ∀ c ∈ calls, ∃ fty,
      ((AddFuncMapGo henv env (fuel+1) (.tstruct sname) []).2).lookup c.1 =
        some (.setter (fieldApply c.1 fty)) ∧ argsOKB fty c.2 = true := by
    intro c hcmem
    obtain ⟨f, hfilter, hargs⟩ := hcalls c hcmem
    have hfin : f ∈ (envFields env sname).filter
        (fun f' => f'.relevant && f'.fname == c.1) := by
      rw [hfilter]
      exact List.mem_cons_self f []
    have hfmem := List.mem_filter.mp hfin
    have hf2 := hfmem.2
    rw [Bool.and_eq_true] at hf2
    have hfrel : f.relevant = true := hf2.1
    have hfname : f.fname = c.1 := beq_iff_eq.mp hf2.2
    have hc1 : c.1 ≠ sname := hfname ▸ hfn f hfmem.1 hfrel
    refine ⟨f.fty, ?_, hargs⟩
    rw [hchar c.1, if_neg hc1]
    rw [show (([] : FnMap).lookup c.1) = none from rfl]
    exact chainFoldName_single (.tstruct sname) c.1 (envFields env sname) f hfilter
  have hctor : ((AddFuncMapGo henv env (fuel+1) (.tstruct sname) []).2).lookup sname =
      some (ctorEntryOf env (.conc (.tstruct sname)) sname) := by
    rw [hchar sname, if_pos rfl]
    exact chainFoldName_nomatch (.tstruct sname) sname (envFields env sname) _
      (fun f hf hcon => hfn f hf hcon.1 hcon.2)
  have hcc : callCtor ((AddFuncMapGo henv env (fuel+1) (.tstruct sname) []).2)
      sname calls =
      (ctorRun sname (requiredOf (envFields env sname))
        (mkSteps (AddFuncMapGo henv env (fuel+1) (.tstruct sname) []).2 calls)).1 := by
    unfold callCtor
    rw [hctor]
    rfl
  have hsent := foldlM_steps_sentinel
    ((AddFuncMapGo henv env (fuel+1) (.tstruct sname) []).2) calls
    (fun c hcm => ((hsetters c hcm).imp (fun _ h => h.1)))
    (requiredOf (envFields env sname))
  have happly := foldlM_steps_ok
    ((AddFuncMapGo henv env (fuel+1) (.tstruct sname) []).2) calls hsetters sname []
  refine ⟨hok, ?_, ?_⟩
  · intro hmiss
    refine ⟨?_, ?_⟩
    · rw [hcc]
      cases hreqE : (requiredOf (envFields env sname)).isEmpty with
      | true =>
          exfalso
          apply hmiss
          rw [List.isEmpty_iff.mp hreqE]
          rfl
      | false =>
          have hmE : (((requiredOf (envFields env sname)).filter
              (fun s => calls.all (fun c => s != c.1))).isEmpty) = false := by
            cases hre : (((requiredOf (envFields env sname)).filter
                (fun s => calls.all (fun c => s != c.1))).isEmpty) with
            | false => rfl
            | true => exact absurd (List.isEmpty_iff.mp hre) hmiss
          unfold ctorRun
          simp only [hreqE, Bool.not_false, if_true, Bind.bind, Except.bind, hsent,
            hmE, Bool.not_true, throw, throwThe, MonadExceptOf.throw]
          rfl
    · unfold sortStrings
      exact List.sorted_insertionSort _ _
  · intro hmiss
    rw [hcc]
    obtain ⟨vals', hv⟩ := happly
    cases hreqE : (requiredOf (envFields env sname)).isEmpty with
    | true =>
        refine ⟨.vstruct sname vals', ?_⟩
        unfold ctorRun
        simp only [hreqE, Bool.not_true, Bool.false_eq_true, if_false, Bind.bind,
          Except.bind, pure, Except.pure, hv]
    | false =>
        refine ⟨.vstruct sname vals', ?_⟩
        have hmE : (((requiredOf (envFields env sname)).filter
            (fun s => calls.all (fun c => s != c.1))).isEmpty) = true := by
          rw [hmiss]
          rfl
        unfold ctorRun
        simp only [hreqE, Bool.not_false, if_true, Bind.bind, Except.bind, hsent,
          hmE, Bool.not_true, Bool.false_eq_true, if_false, pure, Except.pure, hv]

/-- Schema `R` with two required int fields and an optional string
field, for the C3 witness. -/
def envC3 : SEnv :=
  [("R", [⟨"NotReq", .tstr, true, ""⟩, ⟨"G", .tint, true, "+"⟩,
          ⟨"F", .tint, true, "+"⟩])]

/-- Witness for C3: calling the constructor of `R` with only `F`
supplied reports the missing `G`, qualified and with the exact message
suffix. -/
theorem required_fields_error_aggregated_witness :
    callCtor (AddFuncMapGo noHooks envC3 5 (.tstruct "R") []).2 "R"
      [("F", [.vint 0])] = .error "R.G required but not provided" := by
  have h := (required_fields_error_aggregated noHooks envC3 4 "R"
    [("F", [.vint 0])]
    (by decide)
    (by
      intro f hf hrel
      have he : envFields envC3 "R" = [⟨"NotReq", .tstr, true, ""⟩,
          ⟨"G", .tint, true, "+"⟩, ⟨"F", .tint, true, "+"⟩] := rfl
      rw [he] at hf
      simp only [List.mem_cons, List.not_mem_nil, or_false] at hf
      rcases hf with h1 | h1 | h1 <;> (subst h1; exact ⟨rfl, rfl⟩))
    (by
      intro f hf hrel
      have he : envFields envC3 "R" = [⟨"NotReq", .tstr, true, ""⟩,
          ⟨"G", .tint, true, "+"⟩, ⟨"F", .tint, true, "+"⟩] := rfl
      rw [he] at hf
      simp only [List.mem_cons, List.not_mem_nil, or_false] at hf
      rcases hf with h1 | h1 | h1 <;> (subst h1; decide))
    (by
      intro c hc
      simp only [List.mem_singleton] at hc
      subst hc
      exact ⟨⟨"F", .tint, true, "+"⟩, by decide, by decide⟩)).2.1 (by decide)
  exact h.1.trans (by rfl)

/-- Witness for C7: splicing a pre-built slice and appending a scalar
in one call. -/
theorem sequence_setter_appends_and_splices_witness :
    ((∀ a ∈ [Value.vint 1, Value.vslice .tint [.vint 2, .vint 3]],
        a.ty = .tslice .tint ∨ a.ty = .tint) ∧
     (∀ a ∈ [Value.vint 4], a.ty = .tslice .tint ∨ a.ty = .tint)) ∧
    fieldApply "L" (.tslice .tint) [Value.vint 1, Value.vslice .tint [.vint 2, .vint 3]]
        (.vstruct "T7" []) =
      .ok (setFieldVal (.vstruct "T7" []) "L"
        (.vslice .tint (sliceElems (.vstruct "T7" []) "L" .tint ++
          spliceArgs .tint [Value.vint 1, Value.vslice .tint [.vint 2, .vint 3]]))) :=
  ⟨⟨by decide, by decide⟩,
    (sequence_setter_appends_and_splices "L" .tint "T7" []
      [Value.vint 1, Value.vslice .tint [.vint 2, .vint 3]] [Value.vint 4]
      (by decide) (by decide)).1⟩

/-! ## C1: dispatch chains for shared field names -/

/-- A chained setter fed a struct instance dispatches on the runtime
type of the target: the registering type gets the new setter, anything
else is delegated to the previously installed function. -/
theorem chainApply_vstruct (fname : String) (typ : Ty) (fn d : savedApplyFn)
    (args : List Value) (n : String) (vals : List (String × Value)) :
    chainApply fname typ fn d args (.vstruct n vals) =
      if (Ty.tstruct n) = typ then fn args (.vstruct n vals)
      else d args (.vstruct n vals) := rfl

/-- The field loop over a name already bound to a setter: the unique
relevant field with that name wraps the old setter in a dispatch
chain. -/
theorem chainFoldName_single_chain (rt : Ty) (k : String) :
    ∀ (fs : List FieldT) (f : FieldT) (d : savedApplyFn),
      fs.filter (fun f' => f'.relevant && f'.fname == k) = [f] →
      chainFoldName rt k (some (.setter d)) fs =
        some (.setter (chainApply k rt (fieldApply k f.fty) d))
  | [], f, d, h => by simp at h
  | g :: rest, f, d, h => by
      by_cases hg : g.relevant = true ∧ g.fname = k
      · have hgb : (g.relevant && g.fname == k) = true := by
          simp [hg.1, hg.2]
        have h' : g :: rest.filter (fun f' => f'.relevant && f'.fname == k) = [f] := by
          rw [← h]
          simp [List.filter_cons, hgb]
        injection h' with h1 h2
        subst h1
        unfold chainFoldName
        rw [if_pos hg]
        have hrest : ∀ f' ∈ rest, ¬(f'.relevant = true ∧ f'.fname = k) := by
          intro f' hf' hcon
          have : (f'.relevant && f'.fname == k) = true := by
            simp [hcon.1, hcon.2]
          have hmem : f' ∈ rest.filter (fun f' => f'.relevant && f'.fname == k) :=
            List.mem_filter.mpr ⟨hf', this⟩
          rw [h2] at hmem
          simp at hmem
        rw [chainFoldName_nomatch rt k rest _ hrest]
        unfold chainStep
        rw [hg.2]
      · have hgb : (g.relevant && g.fname == k) = false := by
          rcases Decidable.not_and_iff_or_not.mp hg with hr | hn
          · simp [Bool.and_eq_true, hr]
          · have : (g.fname == k) = false := beq_eq_false_iff_ne.mpr hn
            simp [this]
        have h' : rest.filter (fun f' => f'.relevant && f'.fname == k) = [f] := by
          rw [← h]
          simp [List.filter_cons, hgb]
        unfold chainFoldName
        rw [if_neg hg]
        exact chainFoldName_single_chain rt k rest f d h'

/-- One constructor call with a single field call: when the schema has
no required fields, construction is exactly the looked-up setter step
applied to the zero instance. -/
theorem callCtor_one_step (m : FnMap) (env : SEnv) (tk : CtorT)
    (sname fk : String) (args : List Value) (g : savedApplyFn) (v : Value)
    (hct : m.lookup sname = some (ctorEntryOf env tk sname))
    (hreq : requiredOf (envFields env sname) = [])
    (hse : m.lookup fk = some (.setter g))
    (hval : g args (.vstruct sname []) = .ok v) :
    callCtor m sname [(fk, args)] = .ok v := by
  unfold callCtor
  rw [hct]
  show (ctorRun sname (requiredOf (envFields env sname))
    (mkSteps m [(fk, args)])).1 = .ok v
  rw [hreq]
  have hstep : lookupSetter m (fk, args) = g args := by
    unfold lookupSetter
    rw [hse]
  show (ctorRun sname [] [lookupSetter m (fk, args)]).1 = .ok v
  unfold ctorRun
  simp only [List.isEmpty_nil, Bool.not_true, Bool.false_eq_true, if_false,
    List.foldlM, Bind.bind, Except.bind, hstep, hval, pure, Except.pure]

/-- Registering two flat schemas that share a relevant field name,
first `n1` then `n2`: both succeed, the shared name ends up bound to a
dispatch chain (new type first, delegate otherwise), and both schema
names keep their own concrete constructors. -/
theorem shared_pair_reg (henv : HookEnv) (env : SEnv) (fuel : Nat)
    (n1 n2 fk : String) (fs1 fs2 : List FieldT) (f1 f2 : FieldT)
    (hE1 : envFields env n1 = fs1) (hE2 : envFields env n2 = fs2)
    (hn1 : n1 ≠ "") (hn2 : n2 ≠ "") (h12 : n1 ≠ n2)
    (hflat1 : ∀ f ∈ fs1, f.relevant = true →
      nonNestedTy f.fty = true ∧ henv f.fty = none)
    (hflat2 : ∀ f ∈ fs2, f.relevant = true →
      nonNestedTy f.fty = true ∧ henv f.fty = none)
    (hfn1 : ∀ f ∈ fs1, f.relevant = true → f.fname ≠ n1 ∧ f.fname ≠ n2)
    (hfn2 : ∀ f ∈ fs2, f.relevant = true → f.fname ≠ n1 ∧ f.fname ≠ n2)
    (hF1 : fs1.filter (fun f => f.relevant && f.fname == fk) = [f1])
    (hF2 : fs2.filter (fun f => f.relevant && f.fname == fk) = [f2]) :
    (AddFuncMapGo henv env (fuel+1) (.tstruct n1) []).1 = none ∧
    (AddFuncMapGo henv env (fuel+1) (.tstruct n2)
      (AddFuncMapGo henv env (fuel+1) (.tstruct n1) []).2).1 = none ∧
    ((AddFuncMapGo henv env (fuel+1) (.tstruct n2)
      (AddFuncMapGo henv env (fuel+1) (.tstruct n1) []).2).2).lookup fk =
      some (.setter (chainApply fk (.tstruct n2)
        (fieldApply fk f2.fty) (fieldApply fk f1.fty))) ∧
    ((AddFuncMapGo henv env (fuel+1) (.tstruct n2)
      (AddFuncMapGo henv env (fuel+1) (.tstruct n1) []).2).2).lookup n1 =
      some (ctorEntryOf env (.conc (.tstruct n1)) n1) ∧
    ((AddFuncMapGo henv env (fuel+1) (.tstruct n2)
      (AddFuncMapGo henv env (fuel+1) (.tstruct n1) []).2).2).lookup n2 =
      some (ctorEntryOf env (.conc (.tstruct n2)) n2) := by
  have hf1in : f1 ∈ fs1.filter (fun f => f.relevant && f.fname == fk) := by
    rw [hF1]
    exact List.mem_cons_self f1 []
  have hf1m := List.mem_filter.mp hf1in
  have hf1b := hf1m.2
  rw [Bool.and_eq_true] at hf1b
  have hf1rel : f1.relevant = true := hf1b.1
  have hf1name : f1.fname = fk := beq_iff_eq.mp hf1b.2
  have hFn1 : fk ≠ n1 := hf1name ▸ (hfn1 f1 hf1m.1 hf1rel).1
  have hFn2 : fk ≠ n2 := hf1name ▸ (hfn1 f1 hf1m.1 hf1rel).2
  obtain ⟨hok1, hnd1, hchar1⟩ := AddFuncMapGo_flat henv env fuel n1 []
    keysNodup_nil hn1 (Or.inl rfl)
    (by rw [hE1]; exact hflat1)
    (by rw [hE1]; intro f hf hrel; exact ⟨(hfn1 f hf hrel).1, trivial⟩)
  have hm1F : ((AddFuncMapGo henv env (fuel+1) (.tstruct n1) []).2).lookup fk =
      some (.setter (fieldApply fk f1.fty)) := by
    rw [hchar1 fk, if_neg hFn1,
      show (([] : FnMap).lookup fk) = none from rfl, hE1]
    exact chainFoldName_single (.tstruct n1) fk fs1 f1 hF1
  have hm1n2 : ((AddFuncMapGo henv env (fuel+1) (.tstruct n1) []).2).lookup n2 =
      none := by
    rw [hchar1 n2, if_neg (fun h => h12 h.symm),
      show (([] : FnMap).lookup n2) = none from rfl, hE1]
    exact chainFoldName_nomatch (.tstruct n1) n2 fs1 none
      (fun f hf hcon => (hfn1 f hf hcon.1).2 hcon.2)
  have hm1n1 : ((AddFuncMapGo henv env (fuel+1) (.tstruct n1) []).2).lookup n1 =
      some (ctorEntryOf env (.conc (.tstruct n1)) n1) := by
    rw [hchar1 n1, if_pos rfl, hE1]
    exact chainFoldName_nomatch (.tstruct n1) n1 fs1 _
      (fun f hf hcon => (hfn1 f hf hcon.1).1 hcon.2)
  obtain ⟨hok2, hnd2, hchar2⟩ := AddFuncMapGo_flat henv env fuel n2
    ((AddFuncMapGo henv env (fuel+1) (.tstruct n1) []).2) hnd1 hn2
    (Or.inl hm1n2)
    (by rw [hE2]; exact hflat2)
    (by
      rw [hE2]
      intro f hf hrel
      refine ⟨(hfn2 f hf hrel).2, ?_⟩
      rw [hchar1 f.fname, if_neg (hfn2 f hf hrel).1,
        show (([] : FnMap).lookup f.fname) = none from rfl]
      exact setterSlot_chainFoldName (.tstruct n1) f.fname (envFields env n1)
        none trivial)
  refine ⟨hok1, hok2, ?_, ?_, ?_⟩
  · rw [hchar2 fk, if_neg hFn2, hm1F, hE2]
    exact chainFoldName_single_chain (.tstruct n2) fk fs2 f2
      (fieldApply fk f1.fty) hF2
  · rw [hchar2 n1, if_neg h12, hm1n1, hE2]
    exact chainFoldName_nomatch (.tstruct n2) n1 fs2 _
      (fun f hf hcon => (hfn2 f hf hcon.1).1 hcon.2)
  · rw [hchar2 n2, if_pos rfl, hE2]
    exact chainFoldName_nomatch (.tstruct n2) n2 fs2 _
      (fun f hf hcon => (hfn2 f hf hcon.1).2 hcon.2)

/-- C1: when a field name is registered for a second struct type, the
installed setter dispatches on the runtime type of the target
instance: the registry binds the shared name to a chain that applies
the newly-registering type's setter to targets of that type and
delegates every other target to the previously installed function.
Consequently, for two flat struct schemas sharing a field name,
registered into one registry in either order, constructing an instance
of either type applies that type's own field setter — the result is
identical in both registration orders. -/
theorem shared_field_name_dispatches_on_runtime_type
    (henv : HookEnv) (env : SEnv) (fuel : Nat)
    (nA nB fk : String) (fsA fsB : List FieldT) (fA fB : FieldT)
    (argsA argsB : List Value)
    (hEA : envFields env nA = fsA) (hEB : envFields env nB = fsB)
    (hnA : nA ≠ "") (hnB : nB ≠ "") (hAB : nA ≠ nB)
    (hflatA : ∀ f ∈ fsA, f.relevant = true →
      nonNestedTy f.fty = true ∧ henv f.fty = none)
    (hflatB : ∀ f ∈ fsB, f.relevant = true →
      nonNestedTy f.fty = true ∧ henv f.fty = none)
    (hfnA : ∀ f ∈ fsA, f.relevant = true → f.fname ≠ nA ∧ f.fname ≠ nB)
    (hfnB : ∀ f ∈ fsB, f.relevant = true → f.fname ≠ nA ∧ f.fname ≠ nB)
    (hFA : fsA.filter (fun f => f.relevant && f.fname == fk) = [fA])
    (hFB : fsB.filter (fun f => f.relevant && f.fname == fk) = [fB])
    (hreqA : requiredOf fsA = []) (hreqB : requiredOf fsB = [])
    (hargsA : argsOKB fA.fty argsA = true)
    (hargsB : argsOKB fB.fty argsB = true) :
    ((AddFuncMapGo henv env (fuel+1) (.tstruct nA) []).1 = none ∧
     (AddFuncMapGo henv env (fuel+1) (.tstruct nB)
       (AddFuncMapGo henv env (fuel+1) (.tstruct nA) []).2).1 = none ∧
     (AddFuncMapGo henv env (fuel+1) (.tstruct nB) []).1 = none ∧
     (AddFuncMapGo henv env (fuel+1) (.tstruct nA)
       (AddFuncMapGo henv env (fuel+1) (.tstruct nB) []).2).1 = none) ∧
    (((AddFuncMapGo henv env (fuel+1) (.tstruct nB)
        (AddFuncMapGo henv env (fuel+1) (.tstruct nA) []).2).2).lookup fk =
      some (.setter (chainApply fk (.tstruct nB)
        (fieldApply fk fB.fty) (fieldApply fk fA.fty))) ∧
     ((AddFuncMapGo henv env (fuel+1) (.tstruct nA)
        (AddFuncMapGo henv env (fuel+1) (.tstruct nB) []).2).2).lookup fk =
      some (.setter (chainApply fk (.tstruct nA)
        (fieldApply fk fA.fty) (fieldApply fk fB.fty)))) ∧
    (∃ valsA, fieldApply fk fA.fty argsA (.vstruct nA []) =
        .ok (.vstruct nA valsA) ∧
      callCtor ((AddFuncMapGo henv env (fuel+1) (.tstruct nB)
        (AddFuncMapGo henv env (fuel+1) (.tstruct nA) []).2).2) nA [(fk, argsA)] =
        .ok (.vstruct nA valsA) ∧
      callCtor ((AddFuncMapGo henv env (fuel+1) (.tstruct nA)
        (AddFuncMapGo henv env (fuel+1) (.tstruct nB) []).2).2) nA [(fk, argsA)] =
        .ok (.vstruct nA valsA)) ∧
    (∃ valsB, fieldApply fk fB.fty argsB (.vstruct nB []) =
        .ok (.vstruct nB valsB) ∧
      callCtor ((AddFuncMapGo henv env (fuel+1) (.tstruct nB)
        (AddFuncMapGo henv env (fuel+1) (.tstruct nA) []).2).2) nB [(fk, argsB)] =
        .ok (.vstruct nB valsB) ∧
      callCtor ((AddFuncMapGo henv env (fuel+1) (.tstruct nA)
        (AddFuncMapGo henv env (fuel+1) (.tstruct nB) []).2).2) nB [(fk, argsB)] =
        .ok (.vstruct nB valsB)) := by
  obtain ⟨hok1, hok2, hABf, hABn1, hABn2⟩ := shared_pair_reg henv env fuel
    nA nB fk fsA fsB fA fB hEA hEB hnA hnB hAB hflatA hflatB hfnA hfnB hFA hFB
  obtain ⟨hok1', hok2', hBAf, hBAn1, hBAn2⟩ := shared_pair_reg henv env fuel
    nB nA fk fsB fsA fB fA hEB hEA hnB hnA (Ne.symm hAB) hflatB hflatA
    (fun f hf hr => ⟨(hfnB f hf hr).2, (hfnB f hf hr).1⟩)
    (fun f hf hr => ⟨(hfnA f hf hr).2, (hfnA f hf hr).1⟩)
    hFB hFA
  obtain ⟨valsA, hvA⟩ := fieldApply_ok fk fA.fty argsA nA [] hargsA
  obtain ⟨valsB, hvB⟩ := fieldApply_ok fk fB.fty argsB nB [] hargsB
  have hne : ¬(Ty.tstruct nA = Ty.tstruct nB) := fun h => hAB (Ty.tstruct.inj h)
  have hstepA_AB : chainApply fk (.tstruct nB) (fieldApply fk fB.fty)
      (fieldApply fk fA.fty) argsA (.vstruct nA []) = .ok (.vstruct nA valsA) := by
    rw [chainApply_vstruct, if_neg hne]
    exact hvA
  have hstepB_AB : chainApply fk (.tstruct nB) (fieldApply fk fB.fty)
      (fieldApply fk fA.fty) argsB (.vstruct nB []) = .ok (.vstruct nB valsB) := by
    rw [chainApply_vstruct, if_pos rfl]
    exact hvB
  have hstepA_BA : chainApply fk (.tstruct nA) (fieldApply fk fA.fty)
      (fieldApply fk fB.fty) argsA (.vstruct nA []) = .ok (.vstruct nA valsA) := by
    rw [chainApply_vstruct, if_pos rfl]
    exact hvA
  have hstepB_BA : chainApply fk (.tstruct nA) (fieldApply fk fA.fty)
      (fieldApply fk fB.fty) argsB (.vstruct nB []) = .ok (.vstruct nB valsB) := by
    rw [chainApply_vstruct, if_neg (fun h => hne h.symm)]
    exact hvB
  refine ⟨⟨hok1, hok2, hok1', hok2'⟩, ⟨hABf, hBAf⟩, ⟨valsA, hvA, ?_, ?_⟩,
    ⟨valsB, hvB, ?_, ?_⟩⟩
  · exact callCtor_one_step _ env (.conc (.tstruct nA)) nA fk argsA _ _
      hABn1 (by rw [hEA]; exact hreqA) hABf hstepA_AB
  · exact callCtor_one_step _ env (.conc (.tstruct nA)) nA fk argsA _ _
      hBAn2 (by rw [hEA]; exact hreqA) hBAf hstepA_BA
  · exact callCtor_one_step _ env (.conc (.tstruct nB)) nB fk argsB _ _
      hABn2 (by rw [hEB]; exact hreqB) hABf hstepB_AB
  · exact callCtor_one_step _ env (.conc (.tstruct nB)) nB fk argsB _ _
      hBAn1 (by rw [hEB]; exact hreqB) hBAf hstepB_BA

/-- Schemas `X` (int field `F`) and `Y` (string field `F`) sharing the
field name, for the C1 witness. -/
def envXY : SEnv :=
  [("X", [⟨"F", .tint, true, ""⟩]), ("Y", [⟨"F", .tstr, true, ""⟩])]

/-- Witness for C1 at the `X`/`Y` pair: both registration orders
succeed, the shared name `F` holds a dispatch chain, and constructing
`X` and `Y` applies each type's own setter, identically in both
orders. -/
theorem shared_field_name_dispatches_on_runtime_type_witness :
    ((AddFuncMapGo noHooks envXY 5 (.tstruct "X") []).1 = none ∧
     (AddFuncMapGo noHooks envXY 5 (.tstruct "Y")
       (AddFuncMapGo noHooks envXY 5 (.tstruct "X") []).2).1 = none ∧
     (AddFuncMapGo noHooks envXY 5 (.tstruct "Y") []).1 = none ∧
     (AddFuncMapGo noHooks envXY 5 (.tstruct "X")
       (AddFuncMapGo noHooks envXY 5 (.tstruct "Y") []).2).1 = none) ∧
    (((AddFuncMapGo noHooks envXY 5 (.tstruct "Y")
        (AddFuncMapGo noHooks envXY 5 (.tstruct "X") []).2).2).lookup "F" =
      some (.setter (chainApply "F" (.tstruct "Y")
        (fieldApply "F" .tstr) (fieldApply "F" .tint))) ∧
     ((AddFuncMapGo noHooks envXY 5 (.tstruct "X")
        (AddFuncMapGo noHooks envXY 5 (.tstruct "Y") []).2).2).lookup "F" =
      some (.setter (chainApply "F" (.tstruct "X")
        (fieldApply "F" .tint) (fieldApply "F" .tstr)))) ∧
    (∃ valsA, fieldApply "F" .tint [.vint 7] (.vstruct "X" []) =
        .ok (.vstruct "X" valsA) ∧
      callCtor ((AddFuncMapGo noHooks envXY 5 (.tstruct "Y")
        (AddFuncMapGo noHooks envXY 5 (.tstruct "X") []).2).2) "X"
        [("F", [.vint 7])] = .ok (.vstruct "X" valsA) ∧
      callCtor ((AddFuncMapGo noHooks envXY 5 (.tstruct "X")
        (AddFuncMapGo noHooks envXY 5 (.tstruct "Y") []).2).2) "X"
        [("F", [.vint 7])] = .ok (.vstruct "X" valsA)) ∧
    (∃ valsB, fieldApply "F" .tstr [.vstr "a"] (.vstruct "Y" []) =
        .ok (.vstruct "Y" valsB) ∧
      callCtor ((AddFuncMapGo noHooks envXY 5 (.tstruct "Y")
        (AddFuncMapGo noHooks envXY 5 (.tstruct "X") []).2).2) "Y"
        [("F", [.vstr "a"])] = .ok (.vstruct "Y" valsB) ∧
      callCtor ((AddFuncMapGo noHooks envXY 5 (.tstruct "X")
        (AddFuncMapGo noHooks envXY 5 (.tstruct "Y") []).2).2) "Y"
        [("F", [.vstr "a"])] = .ok (.vstruct "Y" valsB)) :=
  shared_field_name_dispatches_on_runtime_type noHooks envXY 4 "X" "Y" "F"
    [⟨"F", .tint, true, ""⟩] [⟨"F", .tstr, true, ""⟩]
    ⟨"F", .tint, true, ""⟩ ⟨"F", .tstr, true, ""⟩
    [.vint 7] [.vstr "a"]
    rfl rfl (by decide) (by decide) (by decide)
    (by
      intro f hf hrel
      simp only [List.mem_singleton] at hf
      subst hf
      exact ⟨rfl, rfl⟩)
    (by
      intro f hf hrel
      simp only [List.mem_singleton] at hf
      subst hf
      exact ⟨rfl, rfl⟩)
    (by
      intro f hf hrel
      simp only [List.mem_singleton] at hf
      subst hf
      exact ⟨by decide, by decide⟩)
    (by
      intro f hf hrel
      simp only [List.mem_singleton] at hf
      subst hf
      exact ⟨by decide, by decide⟩)
    (by decide) (by decide) rfl rfl (by decide) (by decide)
